import Mathlib

/-!
Verification development for `careful_rm.py`, a safe `rm` wrapper.

The Python source is shallowly embedded below.  Filesystem state, user
input, and the exit codes of the external `mv`/`rm`/AppleScript calls are
abstracted into an explicit environment (`Config`, `Env`); user input is a
list of raw strings consumed by the prompt loop; functions that can
terminate abnormally (uncaught exceptions, end of input) return `Option`,
with `none` modelling the abnormal termination.  All definitions are
executable; loops are embedded with explicit fuel so that concrete runs
reduce inside the kernel.
-/

namespace CarefulRm

/-! ## String primitives

Kernel-reducible counterparts of `str.startswith`, `str.endswith`,
`str.strip()` and `str.lower()` (ASCII, which covers every string the
program compares). -/

/-- `pre` is a string prefix of `s` (`str.startswith`). -/
def strHasPrefix (pre s : String) : Bool := pre.toList.isPrefixOf s.toList

/-- `s` ends with `suf` (`str.endswith`). -/
def strEndsWith (s suf : String) : Bool := suf.toList.isSuffixOf s.toList

def isPySpace (c : Char) : Bool :=
  c == ' ' || c == '\t' || c == '\n' || c == '\r'

/-- `str.strip()` (whitespace). -/
def pyStripWS (s : String) : String :=
  String.mk (((s.toList.dropWhile isPySpace).reverse.dropWhile isPySpace).reverse)

def asciiLower (c : Char) : Char :=
  if 'A' ≤ c && c ≤ 'Z' then Char.ofNat (c.toNat + 32) else c

/-- `str.lower()` (ASCII). -/
def pyLower (s : String) : String := String.mk (s.toList.map asciiLower)

/-! ## Path helpers (`os.path`) -/

/-- `os.path.dirname` for POSIX paths: everything up to the last `/`,
with trailing slashes stripped unless the head is all slashes. -/
def dirname (p : String) : String :=
  let cs := p.toList
  match cs.reverse.findIdx? (fun c => c == '/') with
  | none => ""
  | some k =>
    let head := cs.take (cs.length - k)
    if head.all (fun c => c == '/') then String.mk head
    else String.mk ((head.reverse.dropWhile (fun c => c == '/')).reverse)

/-- `os.path.basename`: everything after the last `/`. -/
def basename (p : String) : String :=
  let cs := p.toList
  match cs.reverse.findIdx? (fun c => c == '/') with
  | none => p
  | some k => String.mk (cs.drop (cs.length - k))

/-- `os.path.join a b` for a relative `b` (the only way it is called in the
source); absolute `b` replaces `a`, as in `posixpath.join`. -/
def joinPath (a b : String) : String :=
  if strHasPrefix "/" b then b
  else if a == "" then b
  else if strEndsWith a "/" then a ++ b
  else a ++ "/" ++ b

/-! ## Filesystem model

A path maps to a `Node`: missing, a regular file, a directory, some other
entry (socket, device, ...), or a symlink whose chain resolves to a
`ResKind`.  The `os.path` predicates used by the source are derived from
it: `isdir`/`isfile` follow symlinks, `islink`/`lexists` do not. -/

inductive ResKind | file | dir | other | missing
deriving DecidableEq

inductive Node | missing | file | dir | other | symlink (res : ResKind)
deriving DecidableEq

/-- `os.path.isdir` (follows symlinks). -/
def nodeIsDir : Node → Bool
  | .dir => true
  | .symlink .dir => true
  | _ => false

/-- `os.path.isfile` (follows symlinks). -/
def nodeIsFile : Node → Bool
  | .file => true
  | .symlink .file => true
  | _ => false

/-- `os.path.islink` (does not follow). -/
def nodeIsLink : Node → Bool
  | .symlink _ => true
  | _ => false

/-- `os.path.lexists` (true for broken symlinks). -/
def nodeLexists : Node → Bool
  | .missing => false
  | _ => true

/-- The four path kinds of the classifier in `main` (source lines 479-489). -/
inductive Kind | directory | regularOrLink | other | missing
deriving DecidableEq

/-- The classification chain of `main` (source lines 479-489):
`isdir`, else `isfile or islink`, else `lexists`, else missing. -/
def classifyNode (n : Node) : Kind :=
  if nodeIsDir n then .directory
  else if nodeIsFile n || nodeIsLink n then .regularOrLink
  else if nodeLexists n then .other
  else .missing

/-! ## Startup configuration and environment -/

inductive SysOS | linux | darwin | otherOS
deriving DecidableEq

/-- Values the source computes once at module import (user name, uid,
home directory, platform, `osascript` availability) plus the working
directory used by `os.path.abspath`. -/
structure Config where
  system : SysOS
  user : String
  uid : Nat
  home : String
  cwd : String
  hasOsa : Bool

/-- `RECYCLE_BIN = '/tmp/{user}_trash'` (source line 74). -/
def recycleBin (cfg : Config) : String := "/tmp/" ++ cfg.user ++ "_trash"

/-- `HOME_TRASH` (source lines 80-91); the non-Linux/non-Darwin case sets it
to `None` in the source, modelled as the empty string (never used there). -/
def homeTrash (cfg : Config) : String :=
  match cfg.system with
  | .darwin => cfg.home ++ "/.Trash"
  | .linux => cfg.home ++ "/.local/share/Trash"
  | .otherOS => ""

/-- The visible trash directory name `v_trash` (source line 295). -/
def vTrash (cfg : Config) : String :=
  if cfg.system == .darwin then ".Trash" else ".Trash-" ++ toString cfg.uid

/-- The abstracted environment: filesystem contents, mount table, the exit
codes of the external `mv`/`rm`/AppleScript calls, markers, and the
timestamp `datetime.now().strftime(TIMEFMT)` would produce. -/
structure Env where
  node : String → Node
  /-- For a directory `d`: for each entry of `os.listdir(d)`, whether
  `os.path.isdir(os.path.join(d, entry))` holds (source lines 505-510). -/
  entriesAreDirs : String → List Bool
  /-- `os.path.ismount`. -/
  ismount : String → Bool
  /-- Exit code of `mv <flags> -- <src> <dest>`. -/
  mvResult : List String → String → String → Int
  /-- Exit code of `rm -- <oth...>` (source line 584). -/
  rmOthResult : List String → Int
  /-- Exit code of the final quoted `rm` command (source line 616),
  as a function of the pass-through flags and the path list. -/
  finalRm : List String → List String → Int
  /-- Exit code of the AppleScript call (source line 406). -/
  darwinResult : String → Int
  /-- `os.path.isfile(HOME/.no_apple_rm)` (source line 596). -/
  noAppleRm : Bool
  /-- `dt.now().strftime(TIMEFMT)`. -/
  now : String

/-- `HAS_HOME = os.path.isdir(HOME_TRASH)` (source line 94). -/
def hasHome (cfg : Config) (env : Env) : Bool := nodeIsDir (env.node (homeTrash cfg))

/-- `os.path.abspath` for an already-normalized path: absolute paths are
kept, relative ones are joined to the working directory (normalization of
`.`/`..` segments is not modelled; the claims only use normalized paths). -/
def abspath (cfg : Config) (p : String) : String :=
  if strHasPrefix "/" p then p else joinPath cfg.cwd p

/-! ## Constants (source lines 64-102) -/

/-- `CUTOFF = 3`: don't ask if fewer than this number of files deleted. -/
def CUTOFF : Nat := 3

/-- `MAX_LINE = 5`: print on one line if fewer than this number. -/
def MAX_LINE : Nat := 5

/-- `TIMEFMT` (source line 102). -/
def TIMEFMT : String := "%Y-%m-%dT%H:%M:%S"

/-- The Linux trashinfo template `TRASHINFO` (source lines 97-101),
instantiated as `TRASHINFO.format(path=path, date=date)`. -/
def TRASHINFO (path date : String) : String :=
  "[Trash Info]\nPath=" ++ path ++ "\nDeletionDate=" ++ date ++ "\n"

/-! ## Prompt helpers (`get_ans`, `yesno`, source lines 110-154)

User input is a list of raw strings; `input()` at exhausted input
(EOF) is modelled as `none`.  The retry-until-valid loop recurses on the
input list.  Callers pass lowercase options, as in the source. -/

def get_ans (inputs : List String) (options : List String)
    (default : Option String) : Option (String × List String) :=
  match inputs with
  | [] => none
  | raw :: rest =>
    let ans := pyLower (pyStripWS raw)
    if ans ≠ "" then
      if options.contains ans then some (ans, rest)
      else get_ans rest options default
    else
      match default with
      | some d => some (d, rest)
      | none => get_ans rest options default

/-- `yesno(message, def_yes)`: `get_ans` over `['y','n']` with the default
chosen by `def_yes`; the result is `ans == 'y'`. -/
def yesno (inputs : List String) (defYes : Bool) : Option (Bool × List String) :=
  (get_ans inputs ["y", "n"] (some (if defYes then "y" else "n"))).map
    (fun r => (r.1 == "y", r.2))

/-! ## Mountpoint resolution (`get_mount`, source lines 206-213)

The walk is embedded with fuel `|p| + 1`: `dirname` strictly shortens any
normalized nonempty path other than `/`, so the fuel is never exhausted on
the paths the program feeds it. -/

def get_mountAux (env : Env) : Nat → String → String
  | 0, _ => "/"
  | fuel + 1, p =>
    if p == "" then "/"
    else if env.ismount p || p == "/" then p
    else get_mountAux env fuel (dirname p)

def get_mount (env : Env) (p : String) : String :=
  get_mountAux env (p.length + 1) p

/-! ## Columnar list formatting (`format_list`, source lines 157-203)

Terminal width detection (`tput cols`) is abstracted as an `Option Nat`;
`none` models the `CalledProcessError/FileNotFoundError/ValueError` fallback
to 80.  Python `repr` of a string is modelled for strings without quotes,
backslashes or control characters, the only ones the claims use. -/

/-- `repr(x)` for a plain string. -/
def pyRepr (s : String) : String := "'" ++ s ++ "'"

/-- `str(input_list)` for a list of strings. -/
def strOfList (l : List String) : String :=
  "[" ++ String.intercalate ", " (l.map pyRepr) ++ "]"

/-- `str.strip('[]')`. -/
def stripBrackets (s : String) : String :=
  let f : Char → Bool := fun c => c == '[' || c == ']'
  String.mk (((s.toList.dropWhile f).reverse.dropWhile f).reverse)

/-- `min` of a nonempty Python sequence (`[]` never reaches this point). -/
def minList : List Nat → Nat
  | [] => 0
  | x :: xs => xs.foldl min x

/-- `max` of a nonempty Python sequence. -/
def maxList : List Nat → Nat
  | [] => 0
  | x :: xs => xs.foldl max x

/-- One entry of `col_widths` (source lines 182-187): the maximum of
`len(x) + min_chars_between` over the elements `x` at index `j` with
`j % ncol == i`; `lens` is the list of `len(repr(x))`. -/
def colWidth (lens : List Nat) (ncol i : Nat) : Nat :=
  ((List.range lens.length).filter (fun j => j % ncol == i)).foldl
    (fun a j => max a (lens.getD j 0 + 3)) 0

def colWidths (lens : List Nat) (ncol : Nat) : List Nat :=
  (List.range ncol).map (colWidth lens ncol)

def sumColW (lens : List Nat) (ncol : Nat) : Nat := (colWidths lens ncol).sum

/-- The `while True: ... ncol -= 1` loop (source lines 181-191): starting
from the initial guess, decrement `ncol` until `sum(col_widths) <=
usable_term_width`. -/
def pickNcol (lens : List Nat) (usable : Nat) : Nat → Nat
  | 0 => 0
  | n + 1 => if sumColW lens (n + 1) ≤ usable then n + 1 else pickNcol lens usable n

/-- `str.ljust`. -/
def ljust (s : String) (w : Nat) : String :=
  s ++ String.mk (List.replicate (w - s.length) ' ')

/-- Append `','` to every element but the last (source lines 195-196). -/
def withCommas : List String → List String
  | [] => []
  | [x] => [x]
  | x :: rest => (x ++ ",") :: withCommas rest

/-- The output rows of the rendering loop (source lines 193-201): the cell
stream is consumed `ncol` at a time, each cell left-justified to the width
of its column; a newline ends every full row and the final partial row.
Fueled by the cell count (each step consumes at least one cell). -/
def rowsOfAux (cw : List Nat) (ncol : Nat) : Nat → List String → List String
  | 0, _ => []
  | fuel + 1, cells =>
    if cells.isEmpty then []
    else
      String.join (List.zipWith ljust (cells.take ncol) cw) ::
        rowsOfAux cw ncol fuel (cells.drop ncol)

def rowsOf (cells : List String) (cw : List Nat) (ncol : Nat) : List String :=
  if ncol == 0 then [] else rowsOfAux cw ncol cells.length cells

/-- `format_list(input_list)` (source lines 157-203).  `none` models the
`ValueError` that `min`/`max` of an empty sequence would raise. -/
def format_list (detect : Option Nat) (input_list : List String) : Option String :=
  let term_width := detect.getD 80
  if (strOfList input_list).length < term_width then
    some (stripBrackets (strOfList input_list))
  else
    let repr_list := input_list.map pyRepr
    match repr_list.map String.length with
    | [] => none
    | lens =>
      let min_element_width := minList lens + 3
      let max_element_width := maxList lens + 3
      let usable := term_width - 2
      let cells := withCommas repr_list
      if max_element_width ≥ usable then
        some (String.join ((rowsOf cells [1] 1).map (fun r => r ++ "\n")))
      else
        let start := min repr_list.length (usable / min_element_width)
        let ncol := pickNcol lens usable start
        let cw := colWidths lens ncol
        some (String.join ((rowsOf cells cw ncol).map (fun r => r ++ "\n")))

/-- The list `[len(repr(x)) for x in input_list]` used by `format_list`. -/
def reprLens (l : List String) : List Nat := (l.map pyRepr).map String.length

/-- `usable_term_width = term_width - 2` (source line 172). -/
def usableWidth (detect : Option Nat) : Nat := detect.getD 80 - 2

/-- The initial column guess
`int(min(len(repr_list), usable_term_width/min_element_width))`. -/
def startNcol (l : List String) (detect : Option Nat) : Nat :=
  min l.length (usableWidth detect / (minList (reprLens l) + 3))

/-- The column count the reduction loop settles on. -/
def chosenNcol (l : List String) (detect : Option Nat) : Nat :=
  pickNcol (reprLens l) (usableWidth detect) (startNcol l detect)

/-! ## Events

Observable actions of a run: prompts shown (with their default and the
boolean outcome), the three-way trash-creation choice, external calls with
their exit codes, directory creations and trashinfo writes.  Messages
written to stderr/stdout carry no decisions and are not modelled. -/

inductive PTag
  | recursiveGate | dirsNoRec | bulkInline | bulkColumnar | othDelete | forceDelete
deriving DecidableEq

inductive Ev
  | prompt (tag : PTag) (defYes : Bool) (ans : Bool)
  | choice (mount : String) (ans : String)
  | osa (fl : String) (code : Int)
  | moved (fl dest : String) (code : Int)
  | wroteInfo (file content : String)
  | madeDir (d : String)
  | rmOth (paths : List String) (code : Int)
  | finalRm (paths : List String) (code : Int)
deriving DecidableEq

/-! ## Trash Writer (`recycle_file`, source lines 343-388) -/

/-- `recycle_file(fl, trash, mv_flags)`: returns the `mv` exit code and the
events produced (the move, and the trashinfo write on Linux success when
the target is not the shared bin). -/
def recycle_fileRun (cfg : Config) (env : Env) (fl trash : String)
    (mv_flags : List String) : Int × List Ev :=
  if trash == recycleBin cfg || cfg.system != SysOS.linux then
    let c := env.mvResult mv_flags fl trash
    (c, [.moved fl trash c])
  else
    let trash_can := joinPath trash "files"
    let err := env.mvResult mv_flags fl trash_can
    if err == 0 then
      let info_file := joinPath (joinPath trash "info") (basename fl ++ ".trashinfo")
      (err, [.moved fl trash_can err, .wroteInfo info_file (TRASHINFO fl env.now)])
    else
      (err, [.moved fl trash_can err])

/-! ## Trash Router (`recycle_files`, source lines 223-340) -/

/-- Stable insertion keeping longer strings first: the earlier-original
element goes before later elements of equal length, matching Python's
stable `sorted(files, key=len, reverse=True)` (source line 274). -/
def insertLenDesc (x : String) : List String → List String
  | [] => [x]
  | y :: ys => if y.length ≤ x.length then x :: y :: ys else y :: insertLenDesc x ys

def sortLenDesc (files : List String) : List String :=
  files.foldr insertLenDesc []

/-- Append values under a key of an insertion-ordered association list,
creating the key at the end when absent — the behaviour of both
`defaultdict(list)` appends and the `trashes` dict updates. -/
def appendTo (m : List (String × List String)) (key : String) (vs : List String) :
    List (String × List String) :=
  match m with
  | [] => [(key, vs)]
  | (k, l) :: rest =>
    if k == key then (k, l ++ vs) :: rest else (k, l) :: appendTo rest key vs

/-- The root-mount remap of the grouping loop (source lines 284-288):
a file whose resolved mountpoint is `/` goes to the home trash when the
home trash exists and the file is under the home directory, and to the
shared bin otherwise; any other mountpoint stands. -/
def remapRoot (cfg : Config) (env : Env) (fl m : String) : String :=
  if m == "/" then
    if hasHome cfg env && strHasPrefix cfg.home fl then homeTrash cfg
    else recycleBin cfg
  else m

/-- The mount-grouping loop of `recycle_files` (source lines 274-290),
returning each file paired with the bin key it is appended to, in
processing order.  A file starting (as a string) with an
already-registered key joins the first such key; otherwise its mountpoint
is resolved and, when it is `/`, remapped to the home trash (if the home
trash exists and the file is under the home directory) or the shared bin;
the chosen key is then registered. -/
def binsAssign (cfg : Config) (env : Env) : List String → List String → List (String × String)
  | [], _ => []
  | fl :: rest, gotn =>
    if gotn.any (fun d => strHasPrefix d fl) then
      let d := ((gotn.find? (fun d => strHasPrefix d fl)).getD "")
      (fl, d) :: binsAssign cfg env rest gotn
    else
      let mnt := remapRoot cfg env fl (get_mount env fl)
      (fl, mnt) :: binsAssign cfg env rest (gotn ++ [mnt])

/-- `bins` as built by the loop: insertion-ordered, per-key appends. -/
def binsBuild (cfg : Config) (env : Env) (files : List String) :
    List (String × List String) :=
  (binsAssign cfg env files []).foldl (fun bins p => appendTo bins p.2 [p.1]) []

/-- `os.path.isdir` during `recycle_files`, accounting for directories the
program itself created earlier in the run (`created`). -/
def isdirC (env : Env) (created : List String) (p : String) : Bool :=
  created.contains p || nodeIsDir (env.node p)

/-- The trash-resolution loop (source lines 292-322).  For each mount
group: reuse an existing trash directory, or ask the user to `create` it
(with `expunged`/`files`/`info` subfolders on Linux), reuse the shared
bin (`root`), or mark the group for deletion (`del`).  Returns the
`trashes` map, the `to_delete` seed, the events, and the remaining input;
`none` models EOF at the prompt (the `raise Exception` branch is
unreachable because `get_ans` only returns offered options). -/
def trashesLoop (cfg : Config) (env : Env) :
    List (String × List String) → List String → List (String × List String) →
    List String → List Ev → List String →
    Option (List (String × List String) × List String × List Ev × List String)
  | [], _, trashes, to_del, evs, inputs => some (trashes, to_del, evs, inputs)
  | (mount, file_list) :: rest, created, trashes, to_del, evs, inputs =>
    let r_trash :=
      if mount == homeTrash cfg || mount == recycleBin cfg then mount
      else joinPath mount (vTrash cfg)
    if isdirC env created r_trash then
      trashesLoop cfg env rest created (appendTo trashes r_trash file_list) to_del evs inputs
    else
      match get_ans inputs ["create", "root", "del"] none with
      | none => none
      | some (ans, inRest) =>
        if ans == "create" then
          let subdirs :=
            if cfg.system == SysOS.linux then
              [joinPath r_trash "expunged", joinPath r_trash "files", joinPath r_trash "info"]
            else []
          trashesLoop cfg env rest (created ++ r_trash :: subdirs)
            (appendTo trashes r_trash file_list) to_del
            (evs ++ [.choice mount "create"] ++ (r_trash :: subdirs).map .madeDir) inRest
        else if ans == "root" then
          trashesLoop cfg env rest created (appendTo trashes (recycleBin cfg) file_list)
            to_del (evs ++ [.choice mount "root"]) inRest
        else if ans == "del" then
          trashesLoop cfg env rest created trashes (to_del ++ file_list)
            (evs ++ [.choice mount "del"]) inRest
        else none

/-- The move loop (source lines 324-330): one `recycle_file` call per path
(skipped entirely under dryrun), appending failures to `to_delete`. -/
def moveLoop (cfg : Config) (env : Env) (trashes : List (String × List String))
    (to_del0 mv_flags : List String) (dryrun : Bool) : List String × List Ev :=
  trashes.foldl
    (fun acc p =>
      p.2.foldl
        (fun (acc : List String × List Ev) fl =>
          if dryrun then acc
          else
            let r := recycle_fileRun cfg env fl p.1 mv_flags
            (if r.1 != 0 then acc.1 ++ [fl] else acc.1, acc.2 ++ r.2))
        acc)
    (to_del0, [])

structure RFOut where
  /-- The list returned to `main` (paths the user agreed to force-delete). -/
  failed : List String
  trace : List Ev
  rest : List String
deriving DecidableEq

/-- The filesystem-based part of `recycle_files` (source lines 269-340):
sort, group by mount, resolve trashes, move, and — when anything landed in
`to_delete` — ask once (default No) whether to force-delete; declining
returns `[]`. -/
def recycleMain (cfg : Config) (env : Env) (created0 : List String)
    (files mv_flags : List String) (dryrun : Bool) (inputs : List String) :
    Option RFOut :=
  let files := sortLenDesc files
  let bins := binsBuild cfg env files
  match trashesLoop cfg env bins created0 [] [] [] inputs with
  | none => none
  | some (trashes, to_del0, evs1, inputs1) =>
    let md := moveLoop cfg env trashes to_del0 mv_flags dryrun
    if md.1.isEmpty then some ⟨[], evs1 ++ md.2, inputs1⟩
    else
      match yesno inputs1 false with
      | none => none
      | some (ans, rest) =>
        if ans then some ⟨md.1, evs1 ++ md.2 ++ [.prompt .forceDelete false true], rest⟩
        else some ⟨[], evs1 ++ md.2 ++ [.prompt .forceDelete false false], rest⟩

/-- `recycle_files(files, mv_flags, try_apple, verbose, dryrun)` (source
lines 223-340).  Paths are made absolute first; on Darwin with `osascript`
available the AppleScript bridge is tried per-file, failures falling
through to the filesystem flow. -/
def recycle_filesRun (cfg : Config) (env : Env) (created0 : List String)
    (files0 mv_flags : List String) (try_apple _verbose dryrun : Bool)
    (inputs : List String) : Option RFOut :=
  let files := files0.map (abspath cfg)
  if try_apple && cfg.system == SysOS.darwin && cfg.hasOsa then
    if dryrun then some ⟨[], [], inputs⟩
    else
      let evs := files.map (fun fl => Ev.osa fl (env.darwinResult fl))
      let new_fls := files.filter (fun fl => env.darwinResult fl != 0)
      if new_fls.isEmpty then some ⟨[], evs, inputs⟩
      else
        (recycleMain cfg env created0 new_fls mv_flags dryrun inputs).map
          (fun r => ⟨r.failed, evs ++ r.trace, r.rest⟩)
  else recycleMain cfg env created0 files mv_flags dryrun inputs

/-! ## `main` (source lines 414-618), after argument parsing

Argument parsing (lines 416-474) is thin plumbing; the embedding starts
from the parsed flags and the glob-expanded file list.  A phase either
crashes (uncaught exception / EOF, `Flow.crash`), returns from `main` with
an exit code (`Flow.abort`), or continues (`Flow.ok`); traces accumulate
through `Flow.bind`. -/

inductive Flow (α : Type)
  | crash
  | abort (code : Int) (tr : List Ev)
  | ok (a : α) (tr : List Ev)
deriving DecidableEq

def Flow.bind {α β : Type} : Flow α → (α → Flow β) → Flow β
  | .crash, _ => .crash
  | .abort c t, _ => .abort c t
  | .ok a t, f =>
    match f a with
    | .crash => .crash
    | .abort c t' => .abort c (t ++ t')
    | .ok b t' => .ok b (t ++ t')

/-- The four classification buckets (source lines 475-489). -/
structure Groups where
  drs : List String
  fls : List String
  oth : List String
  bad : List String
deriving DecidableEq

def classifyAll (env : Env) (all_files : List String) : Groups where
  drs := all_files.filter (fun f => classifyNode (env.node f) == .directory)
  fls := all_files.filter (fun f => classifyNode (env.node f) == .regularOrLink)
  oth := all_files.filter (fun f => classifyNode (env.node f) == .other)
  bad := all_files.filter (fun f => classifyNode (env.node f) == .missing)

/-- Recursive-directory gate (source lines 501-532).  When recursion is
requested and directories are present, the one-level sub-entry counts are
computed; when both counts are zero the source crashes with a `NameError`
(`inf = ' and '.join(info)` reading the never-assigned local `info`) —
modelled as `.crash`.  Otherwise a confirmation with default No is shown;
declining returns exit code 1. -/
def recGatePhase (env : Env) (recursive : Bool) (drs : List String)
    (inputs : List String) : Flow (List String) :=
  if recursive && !drs.isEmpty then
    let dc := (drs.map (fun d => (env.entriesAreDirs d).countP (fun b => b))).sum
    let fc := (drs.map (fun d => (env.entriesAreDirs d).countP (fun b => !b))).sum
    if dc == 0 && fc == 0 then .crash
    else
      match yesno inputs false with
      | none => .crash
      | some (ans, rest) =>
        if ans then .ok rest [.prompt .recursiveGate false true]
        else .abort 1 [.prompt .recursiveGate false false]
  else .ok inputs []

/-- Directories-without-recursion case (source lines 533-546, the `elif`
of `if recursive`): warn, ask with default Yes; declining returns exit
code 2; accepting empties `drs`. -/
def dirsGatePhase (recursive : Bool) (drs : List String) (inputs : List String) :
    Flow (List String × List String) :=
  if !recursive && !drs.isEmpty then
    match yesno inputs true with
    | none => .crash
    | some (ans, rest) =>
      if ans then .ok ([], rest) [.prompt .dirsNoRec true true]
      else .abort 2 [.prompt .dirsNoRec true false]
  else .ok (drs, inputs) []

/-- Bulk-file gate (source lines 547-557): at or above `CUTOFF` files, one
confirmation with default No — inline below `MAX_LINE` (decline exits 6),
count-plus-columnar otherwise (decline exits 10). -/
def bulkGatePhase (fls : List String) (inputs : List String) : Flow (List String) :=
  if fls.length ≥ CUTOFF then
    if fls.length < MAX_LINE then
      match yesno inputs false with
      | none => .crash
      | some (ans, rest) =>
        if ans then .ok rest [.prompt .bulkInline false true]
        else .abort 6 [.prompt .bulkInline false false]
    else
      match yesno inputs false with
      | none => .crash
      | some (ans, rest) =>
        if ans then .ok rest [.prompt .bulkColumnar false true]
        else .abort 10 [.prompt .bulkColumnar false false]
  else .ok inputs []

/-- The `recycle_hm` loop (source lines 564-568): iterate `to_delete` by
index, moving paths whose absolute form starts with `HOME` into
`to_recycle` and removing them from `to_delete` *while iterating* — the
source's mutate-during-iteration is reproduced (removal shifts the list so
the following element is skipped).  Fueled; the loop takes at most
`|to_delete|` steps since the index grows and the list never does. -/
def homeSplitAux (cfg : Config) : Nat → Nat → List String → List String →
    List String × List String
  | 0, _, td, tr => (td, tr)
  | fuel + 1, i, td, tr =>
    if h : i < td.length then
      let fl := td.get ⟨i, h⟩
      if strHasPrefix cfg.home (abspath cfg fl) then
        homeSplitAux cfg fuel (i + 1) (td.erase fl) (tr ++ [fl])
      else homeSplitAux cfg fuel (i + 1) td tr
    else (td, tr)

def homeSplit (cfg : Config) (td : List String) : List String × List String :=
  homeSplitAux cfg (td.length + 1) 0 td []

/-- Routing (source lines 559-568): `to_delete = drs + fls`; `recycle`
moves everything to `to_recycle`; else `recycle_hm` runs the home split. -/
def routePhase (cfg : Config) (recycle recycle_hm : Bool) (drs fls : List String) :
    List String × List String :=
  let to_delete := drs ++ fls
  if recycle then ([], to_delete)
  else if recycle_hm then homeSplit cfg to_delete
  else (to_delete, [])

/-- Nothing to do (source lines 574-576): exit code 22. -/
def emptyCheck (to_delete to_recycle oth : List String) : Flow Unit :=
  if to_delete.isEmpty && oth.isEmpty && to_recycle.isEmpty then .abort 22 []
  else .ok () []

/-- Non-regular entries (source lines 579-590): ask with default No;
on yes run `rm -- oth` (failure exits 1); then, whether or not the user
agreed, return 0 immediately when `to_delete` is empty. -/
def othPhase (env : Env) (oth to_delete : List String) (inputs : List String) :
    Flow (List String) :=
  if oth.isEmpty then .ok inputs []
  else
    match yesno inputs false with
    | none => .crash
    | some (ans, rest) =>
      if ans then
        let c := env.rmOthResult oth
        if c == 0 then
          if to_delete.isEmpty then .abort 0 [.prompt .othDelete false true, .rmOth oth 0]
          else .ok rest [.prompt .othDelete false true, .rmOth oth 0]
        else .abort 1 [.prompt .othDelete false true, .rmOth oth c]
      else
        if to_delete.isEmpty then .abort 0 [.prompt .othDelete false false]
        else .ok rest [.prompt .othDelete false false]

/-- Recycling step of `main` (source lines 592-600): ensure the shared bin
exists, compute `try_apple`, and run `recycle_files`; its return value is
appended to `to_delete` by the caller. -/
def recyclePhase (cfg : Config) (env : Env) (to_recycle rec_args : List String)
    (verbose dryrun : Bool) (inputs : List String) : Flow (List String × List String) :=
  if to_recycle.isEmpty then .ok ([], inputs) []
  else
    let binMissing := !nodeIsDir (env.node (recycleBin cfg))
    let created := if binMissing then [recycleBin cfg] else []
    let madeEv := if binMissing then [Ev.madeDir (recycleBin cfg)] else []
    let try_apple := cfg.system == SysOS.darwin && !env.noAppleRm
    match recycle_filesRun cfg env created to_recycle rec_args try_apple verbose dryrun inputs with
    | none => .crash
    | some r => .ok (r.failed, r.rest) (madeEv ++ r.trace)

/-- Final `rm` (source lines 605-618): nothing left means exit 0; dryrun
prints the command and exits 0; otherwise the external `rm` decides. -/
def finalPhase (env : Env) (flags to_delete : List String) (dryrun : Bool) : Flow Unit :=
  if to_delete.isEmpty then .abort 0 []
  else if dryrun then .abort 0 []
  else
    let c := env.finalRm flags to_delete
    .abort c [.finalRm to_delete c]

structure MainOut where
  exit : Int
  trace : List Ev
deriving DecidableEq

def flowToMain : Flow Unit → Option MainOut
  | .crash => none
  | .abort c t => some ⟨c, t⟩
  | .ok _ t => some ⟨0, t⟩

/-- `main` from classification to the final `rm` (source lines 475-618). -/
def mainCore (cfg : Config) (env : Env) (all_files : List String)
    (recursive recycle recycle_hm verbose dryrun : Bool)
    (flags rec_args : List String) (inputs : List String) : Option MainOut :=
  let g := classifyAll env all_files
  flowToMain (
    Flow.bind (recGatePhase env recursive g.drs inputs) (fun inputs1 =>
    Flow.bind (dirsGatePhase recursive g.drs inputs1) (fun dri =>
    Flow.bind (bulkGatePhase g.fls dri.2) (fun inputs3 =>
    let rt := routePhase cfg recycle recycle_hm dri.1 g.fls
    Flow.bind (emptyCheck rt.1 rt.2 g.oth) (fun _ =>
    Flow.bind (othPhase env g.oth rt.1 inputs3) (fun inputs4 =>
    Flow.bind (recyclePhase cfg env rt.2 rec_args verbose dryrun inputs4) (fun fr =>
    finalPhase env flags (rt.1 ++ fr.1) dryrun)))))))

/-! ## Shared concrete scenario environment

A Linux user `u` with home `/home/u`; the filesystem, mount table and
external exit codes are overridden per scenario. -/

def cfg0 : Config := ⟨.linux, "u", 1000, "/home/u", "/home/u", false⟩

def env0 : Env :=
  ⟨fun _ => .missing, fun _ => [], fun _ => false, fun _ _ _ => 0, fun _ => 0,
    fun _ _ => 0, fun _ => 0, true, "2026-01-02T03:04:05"⟩

/-! ## Concrete scenario environment for the `main` claims

`d` is a directory with a single non-directory entry, `s1` a non-regular
entry whose `rm` fails, `f1`..`f5` regular files; everything else is
missing. -/

def envS : Env :=
  { env0 with
    node := fun p =>
      if p == "d" then .dir
      else if p == "s1" then .other
      else if p == "f1" || p == "f2" || p == "f3" || p == "f4" || p == "f5" then .file
      else .missing
    entriesAreDirs := fun d => if d == "d" then [false] else []
    rmOthResult := fun _ => 1 }

/-- `envS` with every directory listing empty. -/
def envSempty : Env := { envS with entriesAreDirs := fun _ => [] }

/-- Scenario for the recycle-failure claims: `/mnt2` is a mountpoint with
an existing visible trash `/mnt2/.Trash-1000`, and every `mv` fails. -/
def envC4 : Env :=
  { env0 with
    node := fun p =>
      if p == "/mnt2/x" then .file
      else if p == "/mnt2/.Trash-1000" then .dir
      else .missing
    ismount := fun p => p == "/mnt2"
    mvResult := fun _ _ _ => 1 }

/-- Scenario for the mount-grouping claim: `/mnt` is the only mountpoint;
nothing exists on disk, so the home trash does not exist either. -/
def envC6 : Env := { env0 with ismount := fun p => p == "/mnt" }

/-- A 100-character file name, wider than any terminal fallback. -/
def c8big : String := String.mk (List.replicate 100 'a')

/-! ## Event-shape predicates used by the theorems -/

def isPromptEv : Ev → Bool
  | .prompt _ _ _ => true
  | _ => false

/-- Prompts of the three confirmation gates of `main`. -/
def isGatePrompt : Ev → Bool
  | .prompt .recursiveGate _ _ => true
  | .prompt .dirsNoRec _ _ => true
  | .prompt .bulkInline _ _ => true
  | .prompt .bulkColumnar _ _ => true
  | _ => false

/-- Prompts of the bulk-file gate. -/
def bulkEv : Ev → Bool
  | .prompt .bulkInline _ _ => true
  | .prompt .bulkColumnar _ _ => true
  | _ => false

/-- The trace carried by a `Flow` result. -/
def Flow.trOf {α : Type} : Flow α → List Ev
  | .crash => []
  | .abort _ t => t
  | .ok _ t => t

/-! ## Helper lemmas about the plumbing -/

theorem Flow.bind_ok_eq {α β : Type} {a : α} {t : List Ev} {f : α → Flow β} {b : β}
    {t' : List Ev} (h : f a = .ok b t') : Flow.bind (.ok a t) f = .ok b (t ++ t') := by
  simp [Flow.bind, h]

theorem Flow.bind_ok_abort {α β : Type} {a : α} {t : List Ev} {f : α → Flow β} {c : Int}
    {t' : List Ev} (h : f a = .abort c t') : Flow.bind (.ok a t) f = .abort c (t ++ t') := by
  simp [Flow.bind, h]

theorem Flow.bind_ok_crash {α β : Type} {a : α} {t : List Ev} {f : α → Flow β}
    (h : f a = .crash) : Flow.bind (.ok a t) f = .crash := by
  simp [Flow.bind, h]

theorem Flow.bind_abort {α β : Type} {c : Int} {t : List Ev} {f : α → Flow β} :
    Flow.bind (.abort c t) f = .abort c t := rfl

theorem Flow.bind_crash {α β : Type} {f : α → Flow β} :
    Flow.bind (.crash : Flow α) f = .crash := rfl

theorem Flow.bind_ok_nil {α β : Type} {a : α} {f : α → Flow β} :
    Flow.bind (.ok a []) f = f a := by
  cases h : f a <;> simp [Flow.bind, h]

theorem flowToMain_trace {fl : Flow Unit} {out : MainOut}
    (h : flowToMain fl = some out) : out.trace = fl.trOf := by
  cases fl <;> simp [flowToMain] at h <;> simp [← h, Flow.trOf]

theorem mem_bind_trOf {α β : Type} {x : Flow α} {f : α → Flow β} {e : Ev}
    (h : e ∈ (Flow.bind x f).trOf) :
    e ∈ x.trOf ∨ ∃ a t, x = .ok a t ∧ e ∈ (f a).trOf := by
  cases x with
  | crash => simp [Flow.bind, Flow.trOf] at h
  | abort c t => exact Or.inl h
  | ok a t =>
    rcases hf : f a with _ | ⟨c', t'⟩ | ⟨b, t'⟩ <;> rw [Flow.bind, hf] at h
    · simp [Flow.trOf] at h
    · rcases List.mem_append.mp h with hl | hr
      · exact Or.inl hl
      · exact Or.inr ⟨a, t, rfl, by simp [hf, Flow.trOf, hr]⟩
    · rcases List.mem_append.mp h with hl | hr
      · exact Or.inl hl
      · exact Or.inr ⟨a, t, rfl, by simp [hf, Flow.trOf, hr]⟩

theorem flowToMain_bind_ok {α : Type} (a : α) (t : List Ev) (f : α → Flow Unit)
    (out : MainOut) (h : flowToMain (Flow.bind (.ok a t) f) = some out) :
    ∃ T, out.trace = t ++ T := by
  rcases hf : f a with _ | ⟨c, t'⟩ | ⟨b, t'⟩ <;> rw [Flow.bind, hf] at h
  · simp [flowToMain] at h
  · simp [flowToMain] at h
    exact ⟨t', by simp [← h]⟩
  · simp [flowToMain] at h
    exact ⟨t', by simp [← h]⟩

/-- Events emitted by `recycle_file` are moves and trashinfo writes. -/
theorem recycle_fileRun_no_prompt (cfg : Config) (env : Env) (fl trash : String)
    (mv_flags : List String) {e : Ev} (h : e ∈ (recycle_fileRun cfg env fl trash mv_flags).2) :
    isPromptEv e = false := by
  unfold recycle_fileRun at h
  split at h
  · simp at h; simp [h, isPromptEv]
  · dsimp only at h
    split at h
    · simp at h
      rcases h with h | h <;> simp [h, isPromptEv]
    · simp at h; simp [h, isPromptEv]

/-- The move loop adds no prompt events. -/
theorem moveLoop_no_prompt (cfg : Config) (env : Env)
    (trashes : List (String × List String)) (to_del0 mv_flags : List String)
    (dryrun : Bool) {e : Ev} (h : e ∈ (moveLoop cfg env trashes to_del0 mv_flags dryrun).2) :
    isPromptEv e = false := by
  have inner : ∀ (fls : List String) (trash : String) (acc : List String × List Ev),
      (∀ e' ∈ acc.2, isPromptEv e' = false) →
      ∀ e' ∈ (fls.foldl
        (fun (acc : List String × List Ev) fl =>
          if dryrun then acc
          else
            let r := recycle_fileRun cfg env fl trash mv_flags
            (if r.1 != 0 then acc.1 ++ [fl] else acc.1, acc.2 ++ r.2)) acc).2,
        isPromptEv e' = false := by
    intro fls
    induction fls with
    | nil => intro trash acc hacc e' he'; exact hacc e' he'
    | cons hd tl ih =>
      intro trash acc hacc e' he'
      refine ih trash _ ?_ e' he'
      intro e'' he''
      by_cases hd' : dryrun
      · simp [hd'] at he''; exact hacc _ he''
      · simp [hd'] at he''
        rcases he'' with hl | hr
        · exact hacc _ hl
        · exact recycle_fileRun_no_prompt cfg env hd trash mv_flags hr
  have outer : ∀ (ts : List (String × List String)) (acc : List String × List Ev),
      (∀ e' ∈ acc.2, isPromptEv e' = false) →
      ∀ e' ∈ (ts.foldl
        (fun acc p =>
          p.2.foldl
            (fun (acc : List String × List Ev) fl =>
              if dryrun then acc
              else
                let r := recycle_fileRun cfg env fl p.1 mv_flags
                (if r.1 != 0 then acc.1 ++ [fl] else acc.1, acc.2 ++ r.2)) acc) acc).2,
        isPromptEv e' = false := by
    intro ts
    induction ts with
    | nil => intro acc hacc e' he'; exact hacc e' he'
    | cons hd tl ih =>
      intro acc hacc e' he'
      exact ih _ (fun e'' he'' => inner hd.2 hd.1 acc hacc e'' he'') e' he'
  exact outer trashes (to_del0, []) (by intro e' he'; simp at he') e h

/-- The trash-resolution loop adds only `choice` and `madeDir` events. -/
theorem trashesLoop_no_prompt (cfg : Config) (env : Env) :
    ∀ (bins : List (String × List String)) (created : List String)
      (trashes : List (String × List String)) (to_del : List String)
      (evs : List Ev) (inputs : List String)
      (T : List (String × List String)) (td : List String) (E : List Ev)
      (I : List String),
      (∀ e ∈ evs, isPromptEv e = false) →
      trashesLoop cfg env bins created trashes to_del evs inputs = some (T, td, E, I) →
      ∀ e ∈ E, isPromptEv e = false := by
  intro bins
  induction bins with
  | nil =>
    intro created trashes to_del evs inputs T td E I hevs h
    unfold trashesLoop at h
    simp only [Option.some.injEq, Prod.mk.injEq] at h
    obtain ⟨-, -, hE, -⟩ := h
    exact hE ▸ hevs
  | cons hd tl ih =>
    intro created trashes to_del evs inputs T td E I hevs h
    unfold trashesLoop at h
    dsimp only at h
    split at h
    all_goals
    split at h
    · exact ih _ _ _ _ _ _ _ _ _ hevs h
    · rcases hga : get_ans inputs ["create", "root", "del"] none with _ | ⟨ans, inRest⟩ <;>
        rw [hga] at h
      · exact absurd h (by simp)
      · dsimp only at h
        split at h
        · refine ih _ _ _ _ _ _ _ _ _ ?_ h
          intro e he
          rcases List.mem_append.mp he with hl | hr
          · rcases List.mem_append.mp hl with hll | hlr
            · exact hevs _ hll
            · simp at hlr; simp [hlr, isPromptEv]
          · rcases List.mem_cons.mp hr with h1 | h1
            · simp [h1, isPromptEv]
            · rcases List.mem_map.mp h1 with ⟨d, _, hh⟩
              simp [← hh, isPromptEv]
        · split at h
          · refine ih _ _ _ _ _ _ _ _ _ ?_ h
            intro e he
            rcases List.mem_append.mp he with hl | hr
            · exact hevs _ hl
            · simp at hr; simp [hr, isPromptEv]
          · split at h
            · refine ih _ _ _ _ _ _ _ _ _ ?_ h
              intro e he
              rcases List.mem_append.mp he with hl | hr
              · exact hevs _ hl
              · simp at hr; simp [hr, isPromptEv]
            · exact absurd h (by simp)

/-- The force-delete confirmation of `recycle_files`: any prompt in its
trace is the final force-delete question with default No; a nonempty
return requires it answered yes; answered no, nothing is returned. -/
theorem recycleMain_force_delete (cfg : Config) (env : Env) (created0 : List String)
    (files mv_flags : List String) (dryrun : Bool) (inputs : List String) (r : RFOut)
    (h : recycleMain cfg env created0 files mv_flags dryrun inputs = some r) :
    (∀ tg d a, Ev.prompt tg d a ∈ r.trace → tg = .forceDelete ∧ d = false) ∧
    (r.failed ≠ [] → Ev.prompt .forceDelete false true ∈ r.trace) ∧
    (Ev.prompt .forceDelete false false ∈ r.trace → r.failed = []) := by
  unfold recycleMain at h
  dsimp only at h
  rcases htl : trashesLoop cfg env (binsBuild cfg env (sortLenDesc files)) created0 [] [] []
      inputs with _ | ⟨T, td0, E, I⟩ <;> rw [htl] at h
  · exact absurd h (by simp)
  · dsimp only at h
    have hE : ∀ e ∈ E, isPromptEv e = false :=
      trashesLoop_no_prompt cfg env _ _ _ _ _ _ _ _ _ _ (by simp) htl
    have hM : ∀ e ∈ (moveLoop cfg env T td0 mv_flags dryrun).2, isPromptEv e = false :=
      fun e he => moveLoop_no_prompt cfg env T td0 mv_flags dryrun he
    have hEM : ∀ e ∈ E ++ (moveLoop cfg env T td0 mv_flags dryrun).2, isPromptEv e = false := by
      intro e he
      rcases List.mem_append.mp he with hl | hr
      · exact hE e hl
      · exact hM e hr
    split at h
    · injection h with h
      subst h
      refine ⟨?_, ?_, ?_⟩
      · intro tg d a hmem
        exact absurd (hEM _ hmem) (by simp [isPromptEv])
      · intro hne; exact absurd rfl hne
      · intro _; rfl
    · rcases hy : yesno I false with _ | ⟨ans, rest⟩ <;> rw [hy] at h
      · exact absurd h (by simp)
      · dsimp only at h
        split at h <;> injection h with h <;> subst h
        · refine ⟨?_, ?_, ?_⟩
          · intro tg d a hmem
            rcases List.mem_append.mp hmem with hl | hr
            · exact absurd (hEM _ hl) (by simp [isPromptEv])
            · simp at hr
              exact ⟨hr.1, hr.2.1⟩
          · intro _
            exact List.mem_append.mpr (Or.inr (by simp))
          · intro hmem
            rcases List.mem_append.mp hmem with hl | hr
            · exact absurd (hEM _ hl) (by simp [isPromptEv])
            · simp at hr
        · refine ⟨?_, ?_, ?_⟩
          · intro tg d a hmem
            rcases List.mem_append.mp hmem with hl | hr
            · exact absurd (hEM _ hl) (by simp [isPromptEv])
            · simp at hr
              exact ⟨hr.1, hr.2.1⟩
          · intro hne; exact absurd rfl hne
          · intro _; rfl

/-- Prompt discipline of `recycle_files` as a whole: prompts in its trace
are force-delete questions with default No; a nonempty return requires a
yes; a no yields an empty return. -/
theorem recycle_filesRun_force_delete (cfg : Config) (env : Env) (created0 : List String)
    (files0 mv_flags : List String) (try_apple verbose dryrun : Bool)
    (inputs : List String) (r : RFOut)
    (h : recycle_filesRun cfg env created0 files0 mv_flags try_apple verbose dryrun
        inputs = some r) :
    (∀ tg d a, Ev.prompt tg d a ∈ r.trace → tg = .forceDelete ∧ d = false) ∧
    (r.failed ≠ [] → Ev.prompt .forceDelete false true ∈ r.trace) ∧
    (Ev.prompt .forceDelete false false ∈ r.trace → r.failed = []) := by
  unfold recycle_filesRun at h
  dsimp only at h
  split at h
  · split at h
    · injection h with h
      subst h
      exact ⟨fun tg d a hmem => absurd hmem (by simp), fun hne => absurd rfl hne,
        fun _ => rfl⟩
    · split at h
      · injection h with h
        subst h
        refine ⟨?_, fun hne => absurd rfl hne, fun _ => rfl⟩
        intro tg d a hmem
        rcases List.mem_map.mp hmem with ⟨fl', _, hh⟩
        exact absurd hh (by simp)
      · rcases hrm : recycleMain cfg env created0
            (List.filter (fun fl => env.darwinResult fl != 0)
              (List.map (abspath cfg) files0)) mv_flags dryrun inputs with _ | r' <;>
          rw [hrm] at h
        · exact absurd h (by simp)
        · simp only [Option.map_some', Option.some.injEq] at h
          subst h
          obtain ⟨p1, p2, p3⟩ := recycleMain_force_delete cfg env created0 _ mv_flags
            dryrun inputs r' hrm
          refine ⟨?_, ?_, ?_⟩
          · intro tg d a hmem
            rcases List.mem_append.mp hmem with hl | hr
            · rcases List.mem_map.mp hl with ⟨fl', _, hh⟩
              exact absurd hh (by simp)
            · exact p1 tg d a hr
          · intro hne
            exact List.mem_append.mpr (Or.inr (p2 hne))
          · intro hmem
            rcases List.mem_append.mp hmem with hl | hr
            · rcases List.mem_map.mp hl with ⟨fl', _, hh⟩
              exact absurd hh (by simp)
            · exact p3 hr
  · exact recycleMain_force_delete cfg env created0 _ mv_flags dryrun inputs r h

theorem flowToMain_bind_ok_trace {α : Type} (a : α) (t : List Ev) (f : α → Flow Unit)
    (out : MainOut) (h : flowToMain (Flow.bind (.ok a t) f) = some out) :
    out.trace = t ++ (f a).trOf := by
  rcases hf : f a with _ | ⟨c, t'⟩ | ⟨b, t'⟩ <;> rw [Flow.bind, hf] at h
  · simp [flowToMain] at h
  · simp [flowToMain] at h
    simp [← h, hf, Flow.trOf]
  · simp [flowToMain] at h
    simp [← h, hf, Flow.trOf]

/-- The phases following the bulk gate never emit a bulk-gate prompt. -/
theorem emptyCheck_no_bulk (td tr oth : List String) {e : Ev}
    (h : e ∈ (emptyCheck td tr oth).trOf) : bulkEv e = false := by
  unfold emptyCheck at h
  split at h <;> simp [Flow.trOf] at h

theorem othPhase_no_bulk (env : Env) (oth td inputs : List String) {e : Ev}
    (h : e ∈ (othPhase env oth td inputs).trOf) : bulkEv e = false := by
  unfold othPhase at h
  split at h
  · simp [Flow.trOf] at h
  · rcases hy : yesno inputs false with _ | ⟨ans, rest⟩ <;> rw [hy] at h
    · simp [Flow.trOf] at h
    · dsimp only at h
      split at h
      · split at h
        · split at h <;> (simp [Flow.trOf] at h; rcases h with rfl | rfl <;> rfl)
        · simp [Flow.trOf] at h
          rcases h with rfl | rfl <;> rfl
      · split at h <;> (simp [Flow.trOf] at h; subst h; rfl)

theorem recyclePhase_no_bulk (cfg : Config) (env : Env)
    (tr rec_args : List String) (verbose dryrun : Bool) (inputs : List String) {e : Ev}
    (h : e ∈ (recyclePhase cfg env tr rec_args verbose dryrun inputs).trOf) :
    bulkEv e = false := by
  unfold recyclePhase at h
  split at h
  · simp [Flow.trOf] at h
  · dsimp only at h
    split at h
    · simp [Flow.trOf] at h
    · rename_i r hr
      simp only [Flow.trOf] at h
      rcases List.mem_append.mp h with hl | hrr
      · split at hl <;> simp at hl
        simp [hl, bulkEv]
      · obtain ⟨p1, -, -⟩ := recycle_filesRun_force_delete cfg env _ tr rec_args _
          verbose dryrun inputs r hr
        revert hrr
        cases e <;> intro hrr <;> try rfl
        rename_i tg d a
        obtain ⟨rfl, rfl⟩ := p1 tg d a hrr
        rfl

theorem finalPhase_no_bulk (env : Env) (flags td : List String) (dryrun : Bool) {e : Ev}
    (h : e ∈ (finalPhase env flags td dryrun).trOf) : bulkEv e = false := by
  unfold finalPhase at h
  split at h
  · simp [Flow.trOf] at h
  · split at h
    · simp [Flow.trOf] at h
    · simp [Flow.trOf] at h
      simp [h, bulkEv]

/-- No event of the post-gate pipeline (empty check, non-regular handling,
recycling, final `rm`) is a bulk-gate prompt. -/
theorem tailChain_no_bulk (cfg : Config) (env : Env) (oth td tr : List String)
    (rec_args flags : List String) (verbose dryrun : Bool) (inputs3 : List String)
    {e : Ev}
    (h : e ∈ (Flow.bind (emptyCheck td tr oth) (fun _ =>
        Flow.bind (othPhase env oth td inputs3) (fun inputs4 =>
        Flow.bind (recyclePhase cfg env tr rec_args verbose dryrun inputs4) (fun fr =>
        finalPhase env flags (td ++ fr.1) dryrun)))).trOf) :
    bulkEv e = false := by
  rcases mem_bind_trOf h with h1 | ⟨a1, t1, -, h1⟩
  · exact emptyCheck_no_bulk td tr oth h1
  · rcases mem_bind_trOf h1 with h2 | ⟨a2, t2, -, h2⟩
    · exact othPhase_no_bulk env oth td inputs3 h2
    · rcases mem_bind_trOf h2 with h3 | ⟨a3, t3, -, h3⟩
      · exact recyclePhase_no_bulk cfg env tr rec_args verbose dryrun a2 h3
      · exact finalPhase_no_bulk env flags (td ++ a3.1) dryrun h3

/-- A gate that continued emitted at most its own single prompt. -/
theorem recGatePhase_ok_trace (env : Env) (r : Bool) (drs inputs i : List String)
    (t : List Ev) (h : recGatePhase env r drs inputs = .ok i t) :
    t = [] ∨ ∃ tg d a, t = [Ev.prompt tg d a] := by
  unfold recGatePhase at h
  try dsimp only at h
  repeat' split at h
  all_goals try injection h with h1 h2
  all_goals first
    | exact Or.inl h2.symm
    | exact Or.inr ⟨_, _, _, h2.symm⟩
    | simp at h

theorem dirsGatePhase_ok_trace (r : Bool) (drs inputs : List String)
    (dri : List String × List String) (t : List Ev)
    (h : dirsGatePhase r drs inputs = .ok dri t) :
    t = [] ∨ ∃ tg d a, t = [Ev.prompt tg d a] := by
  unfold dirsGatePhase at h
  try dsimp only at h
  repeat' split at h
  all_goals try injection h with h1 h2
  all_goals first
    | exact Or.inl h2.symm
    | exact Or.inr ⟨_, _, _, h2.symm⟩
    | simp at h

theorem bulkGatePhase_ok_trace (fls inputs i : List String) (t : List Ev)
    (h : bulkGatePhase fls inputs = .ok i t) :
    t = [] ∨ ∃ tg d a, t = [Ev.prompt tg d a] := by
  unfold bulkGatePhase at h
  try dsimp only at h
  repeat' split at h
  all_goals try injection h with h1 h2
  all_goals first
    | exact Or.inl h2.symm
    | exact Or.inr ⟨_, _, _, h2.symm⟩
    | simp at h

/-! ## Claim C4 — recycle-failure fallback confirmation -/

/-- Claim C4: paths whose recycle attempt fails are handed back for
deletion only behind an explicit, separate force-delete confirmation whose
default is No (every prompt `recycle_files` issues has tag force-delete
and default No); if the user declines, the returned list is empty, so the
failed paths are neither deleted nor recycled and the run continues with
the paths that succeeded. -/
theorem c4_recycle_failure (cfg : Config) (env : Env) (created0 : List String)
    (files0 mv_flags : List String) (try_apple verbose dryrun : Bool)
    (inputs : List String) (r : RFOut)
    (h : recycle_filesRun cfg env created0 files0 mv_flags try_apple verbose dryrun
        inputs = some r) :
    (∀ tg d a, Ev.prompt tg d a ∈ r.trace → tg = .forceDelete ∧ d = false) ∧
    (r.failed ≠ [] → Ev.prompt .forceDelete false true ∈ r.trace) ∧
    (Ev.prompt .forceDelete false false ∈ r.trace → r.failed = []) :=
  recycle_filesRun_force_delete cfg env created0 files0 mv_flags try_apple verbose
    dryrun inputs r h

/-- Claim C4, witness: a concrete failing recycle run (every `mv` fails)
where the user declines the force-delete prompt. -/
theorem c4_witness :
    (∀ tg d a,
        Ev.prompt tg d a ∈
            [Ev.moved "/mnt2/x" "/mnt2/.Trash-1000/files" 1,
              Ev.prompt .forceDelete false false] →
          tg = PTag.forceDelete ∧ d = false) ∧
    (([] : List String) ≠ [] →
      Ev.prompt .forceDelete false true ∈
        [Ev.moved "/mnt2/x" "/mnt2/.Trash-1000/files" 1,
          Ev.prompt .forceDelete false false]) ∧
    (Ev.prompt .forceDelete false false ∈
        [Ev.moved "/mnt2/x" "/mnt2/.Trash-1000/files" 1,
          Ev.prompt .forceDelete false false] →
      ([] : List String) = []) :=
  c4_recycle_failure cfg0 envC4 [] ["/mnt2/x"] [] false false false ["n"]
    ⟨[], [Ev.moved "/mnt2/x" "/mnt2/.Trash-1000/files" 1,
          Ev.prompt .forceDelete false false], []⟩ (by decide)

/-! ## Claim C1 — trashinfo sidecar -/

/-- Claim C1, counterexample: on a successful Linux move into a file+info
trash, the sidecar written is not the claimed two-line `Path=`/
`DeletionDate=` record (with or without trailing newline); it carries a
`[Trash Info]` header line first. -/
theorem c1_counterexample :
    recycle_fileRun cfg0 env0 "/home/u/f.txt" "/home/u/.local/share/Trash" [] =
      (0, [.moved "/home/u/f.txt" "/home/u/.local/share/Trash/files" 0,
           .wroteInfo "/home/u/.local/share/Trash/info/f.txt.trashinfo"
             (TRASHINFO "/home/u/f.txt" "2026-01-02T03:04:05")]) ∧
    TRASHINFO "/home/u/f.txt" "2026-01-02T03:04:05" ≠
      "Path=/home/u/f.txt\nDeletionDate=2026-01-02T03:04:05" ∧
    TRASHINFO "/home/u/f.txt" "2026-01-02T03:04:05" ≠
      "Path=/home/u/f.txt\nDeletionDate=2026-01-02T03:04:05\n" ∧
    TRASHINFO "/home/u/f.txt" "2026-01-02T03:04:05" =
      "[Trash Info]" ++ "\n" ++ "Path=/home/u/f.txt" ++ "\n" ++
        "DeletionDate=2026-01-02T03:04:05" ++ "\n" := by
  refine ⟨by decide, ?_, ?_, by decide⟩ <;> decide

/-- Claim C1 (amended): on Linux, moving into a non-shared trash writes the
sidecar `<basename>.trashinfo` into the trash's `info` subdirectory if and
only if the move returned exit code 0, and its content is bit-exactly the
header line `[Trash Info]` followed by `Path=<path>` and
`DeletionDate=<timestamp>` lines with a trailing newline; the timestamp
format constant is `%Y-%m-%dT%H:%M:%S`. -/
theorem c1_trashinfo_sidecar (cfg : Config) (env : Env) (fl trash : String)
    (mv_flags : List String) (hsys : cfg.system = SysOS.linux)
    (htr : trash ≠ recycleBin cfg) :
    TIMEFMT = "%Y-%m-%dT%H:%M:%S" ∧
    TRASHINFO fl env.now =
      "[Trash Info]\nPath=" ++ fl ++ "\nDeletionDate=" ++ env.now ++ "\n" ∧
    ((recycle_fileRun cfg env fl trash mv_flags).1 = 0 →
      Ev.wroteInfo (joinPath (joinPath trash "info") (basename fl ++ ".trashinfo"))
          (TRASHINFO fl env.now) ∈ (recycle_fileRun cfg env fl trash mv_flags).2) ∧
    ((recycle_fileRun cfg env fl trash mv_flags).1 ≠ 0 →
      ∀ f c, Ev.wroteInfo f c ∉ (recycle_fileRun cfg env fl trash mv_flags).2) := by
  have hcond : (trash == recycleBin cfg || cfg.system != SysOS.linux) = false := by
    simp [hsys, htr]
  refine ⟨rfl, rfl, ?_, ?_⟩ <;>
    · unfold recycle_fileRun
      rw [hcond]
      simp only [Bool.false_eq_true, if_false]
      rcases h : (env.mvResult mv_flags fl (joinPath trash "files") == 0) with _ | _ <;>
        simp_all

/-- Claim C1, witness for the amended theorem at a concrete run. -/
theorem c1_witness :
    TIMEFMT = "%Y-%m-%dT%H:%M:%S" ∧
    TRASHINFO "/home/u/f.txt" env0.now =
      "[Trash Info]\nPath=" ++ "/home/u/f.txt" ++ "\nDeletionDate=" ++ env0.now ++ "\n" ∧
    ((recycle_fileRun cfg0 env0 "/home/u/f.txt" "/home/u/.local/share/Trash" []).1 = 0 →
      Ev.wroteInfo
          (joinPath (joinPath "/home/u/.local/share/Trash" "info") (basename "/home/u/f.txt" ++ ".trashinfo"))
          (TRASHINFO "/home/u/f.txt" env0.now)
        ∈ (recycle_fileRun cfg0 env0 "/home/u/f.txt" "/home/u/.local/share/Trash" []).2) ∧
    ((recycle_fileRun cfg0 env0 "/home/u/f.txt" "/home/u/.local/share/Trash" []).1 ≠ 0 →
      ∀ f c, Ev.wroteInfo f c ∉
        (recycle_fileRun cfg0 env0 "/home/u/f.txt" "/home/u/.local/share/Trash" []).2) :=
  c1_trashinfo_sidecar cfg0 env0 "/home/u/f.txt" "/home/u/.local/share/Trash" []
    (by decide) (by decide)

/-! ## Claim C2 — symlink classification -/

/-- Claim C2, counterexample: a symlink whose target is a directory is
classified `Directory`, not `RegularOrLink` — `os.path.isdir` follows
symlinks and is tested first. -/
theorem c2_counterexample :
    classifyNode (.symlink .dir) = Kind.directory ∧
    Kind.directory ≠ Kind.regularOrLink := by decide

/-- Claim C2 (amended): a symlink is classified `Directory` exactly when
its resolved target is a directory; every other symlink — broken, to a
regular file, or to another entry kind — is classified `RegularOrLink`;
in particular a symlink is never `Other` or `Missing`. -/
theorem c2_symlink_classification (r : ResKind) :
    classifyNode (.symlink r) =
      (if r = .dir then Kind.directory else Kind.regularOrLink) := by
  cases r <;> rfl

/-! ## Claim C3 — directories present without recursion -/

/-- Claim C3, counterexample: a directory and a file, recursion not
requested, and the user declines the "continue anyway?" prompt — `main`
aborts with exit code 2; the file is not forwarded to the delete command
(the trace holds no `rm` invocation), contradicting the claim that
declining only drops the directories while files continue. -/
theorem c3_counterexample :
    mainCore cfg0 envS ["d", "f1"] false false false false false [] [] ["n"] =
      some ⟨2, [.prompt .dirsNoRec true false]⟩ ∧
    (2 : Int) ≠ 0 := by decide

/-- Claim C3 (amended): whenever directories are among the inputs but
recursion was not requested, the user is always warned and asked to
continue, with default answer Yes; *accepting* drops all directories from
processing while remaining files continue to the delete command;
*declining* aborts the whole run with exit code 2 (nothing further is
processed). -/
theorem c3_dirs_gate (cfg : Config) (env : Env) (all_files : List String)
    (recycle recycle_hm verbose dryrun : Bool) (flags rec_args inputs : List String)
    (out : MainOut)
    (hdrs : (classifyAll env all_files).drs ≠ [])
    (hmain : mainCore cfg env all_files false recycle recycle_hm verbose dryrun
        flags rec_args inputs = some out) :
    (∃ a, Ev.prompt .dirsNoRec true a ∈ out.trace) ∧
    (∀ rest, yesno inputs true = some (false, rest) →
        out.exit = 2 ∧ out.trace = [.prompt .dirsNoRec true false]) ∧
    (∀ rest, yesno inputs true = some (true, rest) →
        recycle = false → recycle_hm = false → dryrun = false →
        (classifyAll env all_files).oth = [] →
        (classifyAll env all_files).fls ≠ [] →
        (classifyAll env all_files).fls.length < CUTOFF →
        out.exit = env.finalRm flags (classifyAll env all_files).fls ∧
        out.trace = [.prompt .dirsNoRec true true,
          .finalRm (classifyAll env all_files).fls
            (env.finalRm flags (classifyAll env all_files).fls)]) := by
  have h1 : recGatePhase env false (classifyAll env all_files).drs inputs =
      .ok inputs [] := by simp [recGatePhase]
  have hde : (classifyAll env all_files).drs.isEmpty = false := by
    cases hgl : (classifyAll env all_files).drs with
    | nil => exact absurd hgl hdrs
    | cons a l => rfl
  unfold mainCore at hmain
  dsimp only at hmain
  rw [h1, Flow.bind_ok_nil] at hmain
  rcases hy : yesno inputs true with _ | ⟨ans, rest⟩
  · have h2 : dirsGatePhase false (classifyAll env all_files).drs inputs = .crash := by
      unfold dirsGatePhase
      simp [hde, hy]
    rw [h2, Flow.bind_crash] at hmain
    exact absurd hmain (by simp [flowToMain])
  · cases ans with
    | false =>
      have h2 : dirsGatePhase false (classifyAll env all_files).drs inputs =
          .abort 2 [.prompt .dirsNoRec true false] := by
        unfold dirsGatePhase
        simp [hde, hy]
      rw [h2, Flow.bind_abort] at hmain
      simp only [flowToMain, Option.some.injEq] at hmain
      subst hmain
      refine ⟨⟨false, by simp⟩, ?_, ?_⟩
      · intro rest' _
        exact ⟨rfl, rfl⟩
      · intro rest' h'
        exact absurd h' (by simp)
    | true =>
      have h2 : dirsGatePhase false (classifyAll env all_files).drs inputs =
          .ok ([], rest) [.prompt .dirsNoRec true true] := by
        unfold dirsGatePhase
        simp [hde, hy]
      rw [h2] at hmain
      refine ⟨?_, ?_, ?_⟩
      · obtain ⟨T, hT⟩ := flowToMain_bind_ok _ _ _ _ hmain
        exact ⟨true, by rw [hT]; exact List.mem_append.mpr (Or.inl (by simp))⟩
      · intro rest' h'
        exact absurd h' (by simp)
      · intro rest' h' hrec hrhm hdry hoth hflsne hcut
        subst hrec hrhm hdry
        have hfe : (classifyAll env all_files).fls.isEmpty = false := by
          cases hgl : (classifyAll env all_files).fls with
          | nil => exact absurd hgl hflsne
          | cons a l => rfl
        have h3 : bulkGatePhase (classifyAll env all_files).fls rest = .ok rest [] := by
          unfold bulkGatePhase
          rw [if_neg (Nat.not_le.mpr hcut)]
        have h4 : routePhase cfg false false [] (classifyAll env all_files).fls =
            ((classifyAll env all_files).fls, []) := by
          simp [routePhase]
        have h5 : emptyCheck (classifyAll env all_files).fls []
            (classifyAll env all_files).oth = .ok () [] := by
          unfold emptyCheck
          rw [if_neg (by simp [hfe])]
        have h6 : othPhase env (classifyAll env all_files).oth
            (classifyAll env all_files).fls rest = .ok rest [] := by
          unfold othPhase
          rw [if_pos (by simp [hoth])]
        have h7 : recyclePhase cfg env [] rec_args verbose false rest =
            .ok ([], rest) [] := by
          unfold recyclePhase
          simp
        have h8 : finalPhase env flags ((classifyAll env all_files).fls ++ []) false =
            .abort (env.finalRm flags (classifyAll env all_files).fls)
              [.finalRm (classifyAll env all_files).fls
                (env.finalRm flags (classifyAll env all_files).fls)] := by
          unfold finalPhase
          rw [if_neg (by simp [hfe]), if_neg (by simp)]
          simp
        simp only [h3, h4, h5, h6, h7, h8, Flow.bind, flowToMain,
          Option.some.injEq] at hmain
        subst hmain
        exact ⟨rfl, rfl⟩

/-- Claim C3, witness for the amended theorem: concrete accepting and
declining facts obtained by instantiating it on the `envS` scenario. -/
theorem c3_witness :
    (∃ a, Ev.prompt .dirsNoRec true a ∈
        (MainOut.mk 2 [.prompt .dirsNoRec true false]).trace) ∧
    (∀ rest, yesno ["n"] true = some (false, rest) →
        (MainOut.mk 2 [.prompt .dirsNoRec true false]).exit = 2 ∧
        (MainOut.mk 2 [.prompt .dirsNoRec true false]).trace =
          [.prompt .dirsNoRec true false]) ∧
    (∀ rest, yesno ["n"] true = some (true, rest) →
        false = false → false = false → false = false →
        (classifyAll envS ["d", "f1"]).oth = [] →
        (classifyAll envS ["d", "f1"]).fls ≠ [] →
        (classifyAll envS ["d", "f1"]).fls.length < CUTOFF →
        (MainOut.mk 2 [.prompt .dirsNoRec true false]).exit =
          envS.finalRm [] (classifyAll envS ["d", "f1"]).fls ∧
        (MainOut.mk 2 [.prompt .dirsNoRec true false]).trace =
          [.prompt .dirsNoRec true true,
            .finalRm (classifyAll envS ["d", "f1"]).fls
              (envS.finalRm [] (classifyAll envS ["d", "f1"]).fls)]) := by
  have h := c3_dirs_gate cfg0 envS ["d", "f1"] false false false false [] [] ["n"]
    ⟨2, [.prompt .dirsNoRec true false]⟩ (by decide) (by decide)
  exact h

/-! ## Claim C5 — bulk-file confirmation gate -/

/-- Claim C5: with no directories among the inputs (and recursion off),
the bulk gate triggers iff the classified file count is at least `CUTOFF`
(3): below the cutoff no bulk prompt appears in the whole run and (with
nothing else to handle) the files go straight to the delete command; at or
above it exactly one bulk prompt is issued, with default No, and refusing
it aborts with exit 6 (inline form) or 10 (columnar form) before any
delete command is invoked (the trace is the lone prompt). -/
theorem c5_bulk_gate (cfg : Config) (env : Env) (all_files : List String)
    (recycle recycle_hm verbose dryrun : Bool) (flags rec_args inputs : List String)
    (out : MainOut)
    (hdrs : (classifyAll env all_files).drs = [])
    (hmain : mainCore cfg env all_files false recycle recycle_hm verbose dryrun
        flags rec_args inputs = some out) :
    ((classifyAll env all_files).fls.length < CUTOFF →
        out.trace.countP bulkEv = 0) ∧
    (CUTOFF ≤ (classifyAll env all_files).fls.length →
        out.trace.countP bulkEv = 1 ∧
        ∀ tg d a, Ev.prompt tg d a ∈ out.trace →
          bulkEv (Ev.prompt tg d a) = true → d = false) ∧
    (∀ rest, CUTOFF ≤ (classifyAll env all_files).fls.length →
        yesno inputs false = some (false, rest) →
        out.exit = (if (classifyAll env all_files).fls.length < MAX_LINE
          then (6 : Int) else 10) ∧
        out.trace = [Ev.prompt
          (if (classifyAll env all_files).fls.length < MAX_LINE
            then PTag.bulkInline else PTag.bulkColumnar) false false]) ∧
    ((classifyAll env all_files).fls.length < CUTOFF →
        (classifyAll env all_files).oth = [] → recycle = false → recycle_hm = false →
        dryrun = false → (classifyAll env all_files).fls ≠ [] →
        out.exit = env.finalRm flags (classifyAll env all_files).fls ∧
        out.trace = [Ev.finalRm (classifyAll env all_files).fls
          (env.finalRm flags (classifyAll env all_files).fls)]) := by
  have h1 : recGatePhase env false (classifyAll env all_files).drs inputs =
      .ok inputs [] := by simp [recGatePhase]
  have h2 : dirsGatePhase false (classifyAll env all_files).drs inputs =
      .ok ([], inputs) [] := by
    rw [hdrs]
    simp [dirsGatePhase]
  unfold mainCore at hmain
  dsimp only at hmain
  rw [h1, Flow.bind_ok_nil, h2, Flow.bind_ok_nil] at hmain
  dsimp only at hmain
  by_cases hc : (classifyAll env all_files).fls.length < CUTOFF
  · have h3 : bulkGatePhase (classifyAll env all_files).fls inputs = .ok inputs [] := by
      unfold bulkGatePhase
      rw [if_neg (Nat.not_le.mpr hc)]
    rw [h3, Flow.bind_ok_nil] at hmain
    have htr := flowToMain_trace hmain
    refine ⟨?_, ?_, ?_, ?_⟩
    · intro _
      rw [htr]
      refine List.countP_eq_zero.mpr ?_
      intro e he
      simp [tailChain_no_bulk cfg env _ _ _ rec_args flags verbose dryrun inputs he]
    · intro hge
      exact absurd hge (Nat.not_le.mpr hc)
    · intro rest hge _
      exact absurd hge (Nat.not_le.mpr hc)
    · intro _ hoth hrec hrhm hdry hflsne
      subst hrec hrhm hdry
      have hfe : (classifyAll env all_files).fls.isEmpty = false := by
        cases hgl : (classifyAll env all_files).fls with
        | nil => exact absurd hgl hflsne
        | cons a l => rfl
      have h4 : routePhase cfg false false [] (classifyAll env all_files).fls =
          ((classifyAll env all_files).fls, []) := by
        simp [routePhase]
      have h5 : emptyCheck (classifyAll env all_files).fls []
          (classifyAll env all_files).oth = .ok () [] := by
        unfold emptyCheck
        rw [if_neg (by simp [hfe])]
      have h6 : othPhase env (classifyAll env all_files).oth
          (classifyAll env all_files).fls inputs = .ok inputs [] := by
        unfold othPhase
        rw [if_pos (by simp [hoth])]
      have h7 : recyclePhase cfg env [] rec_args verbose false inputs =
          .ok ([], inputs) [] := by
        unfold recyclePhase
        simp
      have h8 : finalPhase env flags ((classifyAll env all_files).fls ++ []) false =
          .abort (env.finalRm flags (classifyAll env all_files).fls)
            [.finalRm (classifyAll env all_files).fls
              (env.finalRm flags (classifyAll env all_files).fls)] := by
        unfold finalPhase
        rw [if_neg (by simp [hfe]), if_neg (by simp)]
        simp
      simp only [h4, h5, h6, h7, h8, Flow.bind, flowToMain,
        Option.some.injEq] at hmain
      subst hmain
      exact ⟨rfl, rfl⟩
  · have hge := Nat.le_of_not_lt hc
    rcases hy : yesno inputs false with _ | ⟨ans, rest⟩
    · have h3 : bulkGatePhase (classifyAll env all_files).fls inputs = .crash := by
        unfold bulkGatePhase
        rw [if_pos hge]
        split <;> simp [hy]
      rw [h3, Flow.bind_crash] at hmain
      exact absurd hmain (by simp [flowToMain])
    · by_cases hml : (classifyAll env all_files).fls.length < MAX_LINE <;>
        cases ans
      -- hml true, refuse
      · have h3 : bulkGatePhase (classifyAll env all_files).fls inputs =
            .abort 6 [.prompt .bulkInline false false] := by
          unfold bulkGatePhase
          rw [if_pos hge, if_pos hml]
          simp [hy]
        rw [h3, Flow.bind_abort] at hmain
        simp only [flowToMain, Option.some.injEq] at hmain
        subst hmain
        refine ⟨fun hlt => absurd hlt hc, ?_, ?_, fun hlt => absurd hlt hc⟩
        · intro _
          refine ⟨rfl, ?_⟩
          intro tg d a hmem _
          simp at hmem
          exact hmem.2.1
        · intro rest' _ _
          simp [hml]
      -- hml true, accept
      · have h3 : bulkGatePhase (classifyAll env all_files).fls inputs =
            .ok rest [.prompt .bulkInline false true] := by
          unfold bulkGatePhase
          rw [if_pos hge, if_pos hml]
          simp [hy]
        rw [h3] at hmain
        have htr := flowToMain_bind_ok_trace _ _ _ _ hmain
        obtain ⟨T, hT, hTf⟩ : ∃ T, out.trace = [Ev.prompt .bulkInline false true] ++ T ∧
            ∀ e ∈ T, bulkEv e = false :=
          ⟨_, htr, fun e he =>
            tailChain_no_bulk cfg env _ _ _ rec_args flags verbose dryrun rest he⟩
        refine ⟨fun hlt => absurd hlt hc, ?_, ?_, fun hlt => absurd hlt hc⟩
        · intro _
          constructor
          · have hz : T.countP bulkEv = 0 :=
              List.countP_eq_zero.mpr (fun e he => by simp [hTf e he])
            rw [hT, List.countP_append, hz]
            rfl
          · intro tg d a hmem hb
            rw [hT] at hmem
            rcases List.mem_append.mp hmem with hl | hr
            · simp at hl
              exact hl.2.1
            · exact absurd hb (by simp [hTf _ hr])
        · intro rest' _ h'
          exact absurd h' (by simp)
      -- hml false, refuse
      · have h3 : bulkGatePhase (classifyAll env all_files).fls inputs =
            .abort 10 [.prompt .bulkColumnar false false] := by
          unfold bulkGatePhase
          rw [if_pos hge, if_neg hml]
          simp [hy]
        rw [h3, Flow.bind_abort] at hmain
        simp only [flowToMain, Option.some.injEq] at hmain
        subst hmain
        refine ⟨fun hlt => absurd hlt hc, ?_, ?_, fun hlt => absurd hlt hc⟩
        · intro _
          refine ⟨rfl, ?_⟩
          intro tg d a hmem _
          simp at hmem
          exact hmem.2.1
        · intro rest' _ _
          simp [hml]
      -- hml false, accept
      · have h3 : bulkGatePhase (classifyAll env all_files).fls inputs =
            .ok rest [.prompt .bulkColumnar false true] := by
          unfold bulkGatePhase
          rw [if_pos hge, if_neg hml]
          simp [hy]
        rw [h3] at hmain
        have htr := flowToMain_bind_ok_trace _ _ _ _ hmain
        obtain ⟨T, hT, hTf⟩ : ∃ T, out.trace = [Ev.prompt .bulkColumnar false true] ++ T ∧
            ∀ e ∈ T, bulkEv e = false :=
          ⟨_, htr, fun e he =>
            tailChain_no_bulk cfg env _ _ _ rec_args flags verbose dryrun rest he⟩
        refine ⟨fun hlt => absurd hlt hc, ?_, ?_, fun hlt => absurd hlt hc⟩
        · intro _
          constructor
          · have hz : T.countP bulkEv = 0 :=
              List.countP_eq_zero.mpr (fun e he => by simp [hTf e he])
            rw [hT, List.countP_append, hz]
            rfl
          · intro tg d a hmem hb
            rw [hT] at hmem
            rcases List.mem_append.mp hmem with hl | hr
            · simp at hl
              exact hl.2.1
            · exact absurd hb (by simp [hTf _ hr])
        · intro rest' _ h'
          exact absurd h' (by simp)

/-- Claim C5, witness at a concrete below-cutoff run (two files, no
prompt, both forwarded) — obtained by instantiating the theorem. -/
theorem c5_witness :
    ((classifyAll envS ["f1", "f2"]).fls.length < CUTOFF →
        (MainOut.mk 0 [.finalRm ["f1", "f2"] 0]).trace.countP bulkEv = 0) ∧
    (CUTOFF ≤ (classifyAll envS ["f1", "f2"]).fls.length →
        (MainOut.mk 0 [.finalRm ["f1", "f2"] 0]).trace.countP bulkEv = 1 ∧
        ∀ tg d a, Ev.prompt tg d a ∈ (MainOut.mk 0 [.finalRm ["f1", "f2"] 0]).trace →
          bulkEv (Ev.prompt tg d a) = true → d = false) ∧
    (∀ rest, CUTOFF ≤ (classifyAll envS ["f1", "f2"]).fls.length →
        yesno [] false = some (false, rest) →
        (MainOut.mk 0 [.finalRm ["f1", "f2"] 0]).exit =
          (if (classifyAll envS ["f1", "f2"]).fls.length < MAX_LINE
            then (6 : Int) else 10) ∧
        (MainOut.mk 0 [.finalRm ["f1", "f2"] 0]).trace = [Ev.prompt
          (if (classifyAll envS ["f1", "f2"]).fls.length < MAX_LINE
            then PTag.bulkInline else PTag.bulkColumnar) false false]) ∧
    ((classifyAll envS ["f1", "f2"]).fls.length < CUTOFF →
        (classifyAll envS ["f1", "f2"]).oth = [] → false = false → false = false →
        false = false → (classifyAll envS ["f1", "f2"]).fls ≠ [] →
        (MainOut.mk 0 [.finalRm ["f1", "f2"] 0]).exit =
          envS.finalRm [] (classifyAll envS ["f1", "f2"]).fls ∧
        (MainOut.mk 0 [.finalRm ["f1", "f2"] 0]).trace =
          [Ev.finalRm (classifyAll envS ["f1", "f2"]).fls
            (envS.finalRm [] (classifyAll envS ["f1", "f2"]).fls)]) :=
  c5_bulk_gate cfg0 envS ["f1", "f2"] false false false false [] [] []
    ⟨0, [.finalRm ["f1", "f2"] 0]⟩ (by decide) (by decide)

/-! ## Claim C6 — per-mount grouping and root remap -/

/-- Claim C6, counterexample: with `/mnt` a mountpoint, home trash absent,
files `/mnt/abc` and `/mntx`: the longer `/mnt/abc` registers bin key
`/mnt`; then `/mntx` — whose resolved mountpoint is `/`, which the claim
says must remap to the shared bin — is captured by the string-prefix
shortcut (`'/mntx'.startswith('/mnt')`) and grouped under `/mnt` instead. -/
theorem c6_counterexample :
    binsBuild cfg0 envC6 (sortLenDesc ["/mntx", "/mnt/abc"]) =
      [("/mnt", ["/mnt/abc", "/mntx"])] ∧
    get_mount envC6 "/mntx" = "/" ∧
    strHasPrefix cfg0.home "/mntx" = false ∧
    "/mnt" ≠ recycleBin cfg0 ∧
    "/mnt" ≠ homeTrash cfg0 := by decide

/-- Claim C6 (amended): in the grouping loop, every file is grouped either
under the bin prescribed by the mountpoint rule — its resolved mountpoint,
remapped (when that is `/`) to the home trash if the home trash exists and
the file is under the home directory, or else the shared bin — or under an
already-registered bin key that is a string prefix of the file (the
processing-order shortcut), that key being one of the initially known keys
or the key of some file in the same batch. -/
theorem c6_router_grouping (cfg : Config) (env : Env) :
    ∀ (files gotn0 : List String) (p : String × String),
      p ∈ binsAssign cfg env files gotn0 →
      p.2 = remapRoot cfg env p.1 (get_mount env p.1) ∨
      (strHasPrefix p.2 p.1 = true ∧
        (p.2 ∈ gotn0 ∨ p.2 ∈ (binsAssign cfg env files gotn0).map Prod.snd)) := by
  intro files
  induction files with
  | nil =>
    intro gotn0 p hp
    simp [binsAssign] at hp
  | cons fl rest ih =>
    intro gotn0 p hp
    unfold binsAssign at hp
    split at hp
    · rename_i hany
      obtain ⟨x, hx, hpx⟩ := List.any_eq_true.mp hany
      obtain ⟨d, hd⟩ : ∃ d, gotn0.find? (fun d => strHasPrefix d fl) = some d := by
        cases hfd : gotn0.find? (fun d => strHasPrefix d fl) with
        | none => exact absurd hpx (by simpa using List.find?_eq_none.mp hfd x hx)
        | some d => exact ⟨d, rfl⟩
      rcases List.mem_cons.mp hp with rfl | hp'
      · refine Or.inr ⟨?_, Or.inl ?_⟩
        · simp only [hd, Option.getD_some]
          have hps := List.find?_some hd
          simpa using hps
        · simp only [hd, Option.getD_some]
          exact List.mem_of_find?_eq_some hd
      · rcases ih gotn0 p hp' with hA | ⟨hpre, hB | hB⟩
        · exact Or.inl hA
        · exact Or.inr ⟨hpre, Or.inl hB⟩
        · refine Or.inr ⟨hpre, Or.inr ?_⟩
          unfold binsAssign
          rw [if_pos hany]
          exact List.mem_cons_of_mem _ hB
    · rename_i hnotany
      dsimp only at hp
      rcases List.mem_cons.mp hp with rfl | hp'
      · exact Or.inl rfl
      · rcases ih (gotn0 ++ [remapRoot cfg env fl (get_mount env fl)]) p hp'
          with hA | ⟨hpre, hB | hB⟩
        · exact Or.inl hA
        · rcases List.mem_append.mp hB with hB1 | hB2
          · exact Or.inr ⟨hpre, Or.inl hB1⟩
          · simp only [List.mem_singleton] at hB2
            refine Or.inr ⟨hpre, Or.inr ?_⟩
            unfold binsAssign
            rw [if_neg hnotany]
            dsimp only
            simp [hB2]
        · refine Or.inr ⟨hpre, Or.inr ?_⟩
          unfold binsAssign
          rw [if_neg hnotany]
          dsimp only
          exact List.mem_cons_of_mem _ hB

/-- Claim C6, witness: the amended theorem instantiated at the prefix
capture scenario. -/
theorem c6_witness :
    ("/mntx", "/mnt").2 =
      remapRoot cfg0 envC6 ("/mntx", "/mnt").1
        (get_mount envC6 ("/mntx", "/mnt").1) ∨
    (strHasPrefix ("/mntx", "/mnt").2 ("/mntx", "/mnt").1 = true ∧
      (("/mntx", "/mnt").2 ∈ ([] : List String) ∨
        ("/mntx", "/mnt").2 ∈
          (binsAssign cfg0 envC6 (sortLenDesc ["/mntx", "/mnt/abc"]) []).map
            Prod.snd)) :=
  c6_router_grouping cfg0 envC6 (sortLenDesc ["/mntx", "/mnt/abc"]) []
    ("/mntx", "/mnt") (by decide)

/-! ## Claim C7 — empty-directory recursive confirmation -/

/-- Claim C7 (code bug): with recursion requested and one directory whose
listing is empty, `main` terminates abnormally (`NameError`: the local
`info` is only assigned when a sub-entry count is nonzero, yet
`' and '.join(info)` always runs) instead of building the message and
showing the prompt; with at least one sub-entry the prompt is shown and
declining exits 1. -/
theorem c7_empty_dirs_nameerror :
    mainCore cfg0 envSempty ["d"] true false false false false [] [] ["y"] = none ∧
    mainCore cfg0 envS ["d"] true false false false false [] [] ["n"] =
      some ⟨1, [.prompt .recursiveGate false false]⟩ := by decide

/-! ## Claim C9 — exit codes per failure reason -/

/-- Claim C9, counterexample: aborting the recursive-directory gate and a
failed deletion of non-regular entries terminate with the *same* exit
code 1, so the listed failure reasons do not all have distinct codes. -/
theorem c9_counterexample :
    (mainCore cfg0 envS ["d"] true false false false false [] [] ["n"]).map
        MainOut.exit = some 1 ∧
    (mainCore cfg0 envS ["s1"] false false false false false [] [] ["y"]).map
        MainOut.exit = some 1 := by decide

/-- Claim C9 (amended): the failure exits are — recursive-gate abort 1,
directories-without-recursion decline 2, bulk-gate refusal 6 (inline form)
or 10 (columnar form), nothing to do 22, non-regular-deletion failure 1;
all differ from success (0), and all differ from one another *except*
that the recursive-gate abort and the non-regular-deletion failure share
exit code 1. -/
theorem c9_exit_codes :
    (mainCore cfg0 envS ["d"] true false false false false [] [] ["n"]).map
        MainOut.exit = some 1 ∧
    (mainCore cfg0 envS ["d"] false false false false false [] [] ["n"]).map
        MainOut.exit = some 2 ∧
    (mainCore cfg0 envS ["f1", "f2", "f3"] false false false false false [] [] ["n"]).map
        MainOut.exit = some 6 ∧
    (mainCore cfg0 envS ["f1", "f2", "f3", "f4", "f5"] false false false false false
        [] [] ["n"]).map MainOut.exit = some 10 ∧
    (mainCore cfg0 envS [] false false false false false [] [] []).map
        MainOut.exit = some 22 ∧
    (mainCore cfg0 envS ["s1"] false false false false false [] [] ["y"]).map
        MainOut.exit = some 1 ∧
    (mainCore cfg0 envS ["f1"] false false false false false [] [] []).map
        MainOut.exit = some 0 ∧
    ([(1 : Int), 2, 6, 10, 22].Pairwise (fun a b => a ≠ b) ∧
      ∀ c ∈ [(1 : Int), 2, 6, 10, 22], c ≠ 0) := by decide

/-! ## Claim C10 — early return after non-regular handling -/

/-- Claim C10 (amended): whenever non-regular entries are present and,
after the confirmation gates, the to-delete list is empty — which holds in
particular whenever recycle mode is on — `main` returns immediately after
handling the non-regular entries, 0 normally and 1 when their deletion
failed, without attempting to recycle or delete any of the paths queued
for recycling (the trace holds no move and no final `rm`). -/
theorem c10_early_return (cfg : Config) (env : Env) (all_files : List String)
    (recursive recycle_hm verbose dryrun : Bool)
    (flags rec_args inputs : List String) (out : MainOut)
    (inputs1 : List String) (tr1 : List Ev) (dri : List String × List String)
    (tr2 : List Ev) (inputs3 : List String) (tr3 : List Ev)
    (h1 : recGatePhase env recursive (classifyAll env all_files).drs inputs =
      .ok inputs1 tr1)
    (h2 : dirsGatePhase recursive (classifyAll env all_files).drs inputs1 = .ok dri tr2)
    (h3 : bulkGatePhase (classifyAll env all_files).fls dri.2 = .ok inputs3 tr3)
    (hoth : (classifyAll env all_files).oth ≠ [])
    (hmain : mainCore cfg env all_files recursive true recycle_hm verbose dryrun
        flags rec_args inputs = some out) :
    (out.exit = 0 ∨ out.exit = 1) ∧
    (∀ fl dest c, Ev.moved fl dest c ∉ out.trace) ∧
    (∀ p c, Ev.finalRm p c ∉ out.trace) := by
  have hothE : (classifyAll env all_files).oth.isEmpty = false := by
    cases hgl : (classifyAll env all_files).oth with
    | nil => exact absurd hgl hoth
    | cons a l => rfl
  have hroute : routePhase cfg true recycle_hm dri.1 (classifyAll env all_files).fls =
      ([], dri.1 ++ (classifyAll env all_files).fls) := by simp [routePhase]
  have hec : emptyCheck ([] : List String) (dri.1 ++ (classifyAll env all_files).fls)
      (classifyAll env all_files).oth = .ok () [] := by
    unfold emptyCheck
    rw [if_neg (by simp [hothE])]
  have hobr : othPhase env (classifyAll env all_files).oth [] inputs3 = .crash ∨
      ∃ c t, othPhase env (classifyAll env all_files).oth [] inputs3 = .abort c t ∧
        (c = 0 ∨ c = 1) ∧
        (∀ fl dest cc, Ev.moved fl dest cc ∉ t) ∧
        (∀ p cc, Ev.finalRm p cc ∉ t) := by
    rcases hy : yesno inputs3 false with _ | ⟨ans, rest⟩
    · left
      unfold othPhase
      rw [if_neg (by simp [hothE]), hy]
    · cases ans
      · right
        refine ⟨0, [Ev.prompt .othDelete false false], ?_, Or.inl rfl, ?_, ?_⟩
        · unfold othPhase
          rw [if_neg (by simp [hothE]), hy]
          simp
        · intro fl dest cc hmem; simp at hmem
        · intro p cc hmem; simp at hmem
      · by_cases hc0 : env.rmOthResult (classifyAll env all_files).oth = 0
        · right
          refine ⟨0, [Ev.prompt .othDelete false true,
            Ev.rmOth (classifyAll env all_files).oth 0], ?_, Or.inl rfl, ?_, ?_⟩
          · unfold othPhase
            rw [if_neg (by simp [hothE]), hy]
            simp [hc0]
          · intro fl dest cc hmem; simp at hmem
          · intro p cc hmem; simp at hmem
        · right
          refine ⟨1, [Ev.prompt .othDelete false true,
            Ev.rmOth (classifyAll env all_files).oth
              (env.rmOthResult (classifyAll env all_files).oth)], ?_, Or.inr rfl,
            ?_, ?_⟩
          · unfold othPhase
            rw [if_neg (by simp [hothE]), hy]
            simp [hc0]
          · intro fl dest cc hmem; simp at hmem
          · intro p cc hmem; simp at hmem
  unfold mainCore at hmain
  dsimp only at hmain
  rcases hobr with hcrash | ⟨c, t, hop, hc01, hmv, hfr⟩
  · rw [h1] at hmain
    simp only [h2, h3, hroute, hec, hcrash, Flow.bind, flowToMain] at hmain
    exact absurd hmain (by simp)
  · rw [h1] at hmain
    simp only [h2, h3, hroute, hec, hop, Flow.bind, flowToMain,
      Option.some.injEq] at hmain
    subst hmain
    have htr1 := recGatePhase_ok_trace env recursive
      (classifyAll env all_files).drs inputs inputs1 tr1 h1
    have htr2 := dirsGatePhase_ok_trace recursive
      (classifyAll env all_files).drs inputs1 dri tr2 h2
    have htr3 := bulkGatePhase_ok_trace (classifyAll env all_files).fls dri.2
      inputs3 tr3 h3
    refine ⟨hc01, ?_, ?_⟩
    · intro fl dest cc hmem
      simp only [MainOut.trace] at hmem
      rcases List.mem_append.mp hmem with hA | hmem
      · rcases htr1 with rfl | ⟨tg, d, a, rfl⟩ <;> simp at hA
      · rcases List.mem_append.mp hmem with hA | hmem
        · rcases htr2 with rfl | ⟨tg, d, a, rfl⟩ <;> simp at hA
        · rcases List.mem_append.mp hmem with hA | hmem
          · rcases htr3 with rfl | ⟨tg, d, a, rfl⟩ <;> simp at hA
          · rcases List.mem_append.mp hmem with hA | hmem
            · simp at hA
            · exact hmv fl dest cc hmem
    · intro p cc hmem
      simp only [MainOut.trace] at hmem
      rcases List.mem_append.mp hmem with hA | hmem
      · rcases htr1 with rfl | ⟨tg, d, a, rfl⟩ <;> simp at hA
      · rcases List.mem_append.mp hmem with hA | hmem
        · rcases htr2 with rfl | ⟨tg, d, a, rfl⟩ <;> simp at hA
        · rcases List.mem_append.mp hmem with hA | hmem
          · rcases htr3 with rfl | ⟨tg, d, a, rfl⟩ <;> simp at hA
          · rcases List.mem_append.mp hmem with hA | hmem
            · simp at hA
            · exact hfr p cc hmem

/-- Claim C10, witness for the amended theorem at a concrete run (recycle
mode on, one file queued, one non-regular entry, oth deletion declined). -/
theorem c10_witness :
    ((MainOut.mk 0 [.prompt .othDelete false false]).exit = 0 ∨
      (MainOut.mk 0 [.prompt .othDelete false false]).exit = 1) ∧
    (∀ fl dest c, Ev.moved fl dest c ∉
      (MainOut.mk 0 [.prompt .othDelete false false]).trace) ∧
    (∀ p c, Ev.finalRm p c ∉
      (MainOut.mk 0 [.prompt .othDelete false false]).trace) :=
  c10_early_return cfg0 envS ["f1", "s1"] false false false false [] [] ["n"]
    ⟨0, [.prompt .othDelete false false]⟩ ["n"] [] ([], ["n"]) [] ["n"] []
    (by decide) (by decide) (by decide) (by decide) (by decide)

/-! ## Arithmetic of the columnar formatter (claim C8) -/

theorem foldl_maxg_le (g : Nat → Nat) :
    ∀ (J : List Nat) (a : Nat), a ≤ J.foldl (fun acc j => max acc (g j)) a := by
  intro J
  induction J with
  | nil => intro a; exact Nat.le_refl a
  | cons x J ih =>
    intro a
    exact le_trans (Nat.le_max_left a (g x)) (ih (max a (g x)))

theorem foldl_maxg_mem (g : Nat → Nat) :
    ∀ (J : List Nat) (a j : Nat), j ∈ J →
      g j ≤ J.foldl (fun acc j => max acc (g j)) a := by
  intro J
  induction J with
  | nil => intro a j hj; simp at hj
  | cons x J ih =>
    intro a j hj
    rcases List.mem_cons.mp hj with rfl | hj
    · exact le_trans (Nat.le_max_right a (g j)) (foldl_maxg_le g J _)
    · exact ih _ j hj

theorem foldl_maxg_attain (g : Nat → Nat) :
    ∀ (J : List Nat) (a : Nat),
      J.foldl (fun acc j => max acc (g j)) a = a ∨
      ∃ j ∈ J, J.foldl (fun acc j => max acc (g j)) a = g j := by
  intro J
  induction J with
  | nil => intro a; exact Or.inl rfl
  | cons x J ih =>
    intro a
    rcases ih (max a (g x)) with h | ⟨j, hj, h⟩
    · rcases max_choice a (g x) with hm | hm
      · exact Or.inl (by simpa [hm] using h)
      · exact Or.inr ⟨x, List.mem_cons_self x J, by simpa [hm] using h⟩
    · exact Or.inr ⟨j, List.mem_cons_of_mem x hj, h⟩

theorem foldl_min_le_init : ∀ (xs : List Nat) (a : Nat), xs.foldl min a ≤ a := by
  intro xs
  induction xs with
  | nil => intro a; exact Nat.le_refl a
  | cons x xs ih =>
    intro a
    exact le_trans (ih (min a x)) (Nat.min_le_left a x)

theorem foldl_min_le_mem : ∀ (xs : List Nat) (a x : Nat), x ∈ xs →
    xs.foldl min a ≤ x := by
  intro xs
  induction xs with
  | nil => intro a x hx; simp at hx
  | cons y xs ih =>
    intro a x hx
    rcases List.mem_cons.mp hx with rfl | hx
    · exact le_trans (foldl_min_le_init xs _) (Nat.min_le_right a x)
    · exact ih _ x hx

theorem minList_le_mem : ∀ (lens : List Nat) (x : Nat), x ∈ lens → minList lens ≤ x := by
  intro lens x hx
  cases lens with
  | nil => simp at hx
  | cons y ys =>
    rcases List.mem_cons.mp hx with rfl | hx
    · exact foldl_min_le_init ys x
    · exact foldl_min_le_mem ys y x hx

theorem mem_le_maxList : ∀ (lens : List Nat) (x : Nat), x ∈ lens → x ≤ maxList lens := by
  intro lens x hx
  cases lens with
  | nil => simp at hx
  | cons y ys =>
    rcases List.mem_cons.mp hx with rfl | hx
    · exact foldl_maxg_le id ys x
    · exact foldl_maxg_mem id ys y x hx

theorem getD_mem_or_zero : ∀ (lens : List Nat) (j : Nat),
    lens.getD j 0 ∈ lens ∨ lens.getD j 0 = 0 := by
  intro lens
  induction lens with
  | nil => intro j; exact Or.inr rfl
  | cons x xs ih =>
    intro j
    cases j with
    | zero => exact Or.inl (by simp)
    | succ j =>
      rcases ih j with h | h
      · exact Or.inl (by simp [List.getD_cons_succ]; exact Or.inr (by simpa using h))
      · exact Or.inr (by simpa [List.getD_cons_succ] using h)

theorem getD_mem_of_lt : ∀ (lens : List Nat) (j : Nat), j < lens.length →
    lens.getD j 0 ∈ lens := by
  intro lens
  induction lens with
  | nil => intro j hj; simp at hj
  | cons x xs ih =>
    intro j hj
    cases j with
    | zero => simp
    | succ j =>
      rw [List.getD_cons_succ]
      exact List.mem_cons_of_mem x (ih j (by simpa using hj))

theorem minList_le_getD (lens : List Nat) (j : Nat) (hj : j < lens.length) :
    minList lens ≤ lens.getD j 0 :=
  minList_le_mem lens _ (getD_mem_of_lt lens j hj)

theorem getD_le_maxList (lens : List Nat) (j : Nat) :
    lens.getD j 0 ≤ maxList lens := by
  rcases getD_mem_or_zero lens j with h | h
  · exact mem_le_maxList lens _ h
  · rw [h]
    exact Nat.zero_le _

theorem colWidth_ub (lens : List Nat) (ncol i j : Nat) (hj : j < lens.length)
    (hmod : j % ncol = i) : lens.getD j 0 + 3 ≤ colWidth lens ncol i := by
  have hmem : j ∈ (List.range lens.length).filter (fun j => j % ncol == i) := by
    simp [List.mem_filter, List.mem_range, hj, hmod]
  exact foldl_maxg_mem (fun j => lens.getD j 0 + 3) _ 0 j hmem

theorem colWidth_le_max (lens : List Nat) (ncol i : Nat) :
    colWidth lens ncol i ≤ maxList lens + 3 := by
  rcases foldl_maxg_attain (fun j => lens.getD j 0 + 3)
      ((List.range lens.length).filter (fun j => j % ncol == i)) 0 with h | ⟨j, _, h⟩
  · rw [colWidth, h]
    exact Nat.zero_le _
  · rw [colWidth, h]
    exact Nat.add_le_add_right (getD_le_maxList lens j) 3

theorem colWidth_attain (lens : List Nat) (ncol i : Nat) (hi : i < ncol)
    (hlen : ncol ≤ lens.length) :
    ∃ j, j < lens.length ∧ j % ncol = i ∧
      colWidth lens ncol i = lens.getD j 0 + 3 := by
  have hilen : i < lens.length := lt_of_lt_of_le hi hlen
  have himod : i % ncol = i := Nat.mod_eq_of_lt hi
  have hlb := colWidth_ub lens ncol i i hilen himod
  rcases foldl_maxg_attain (fun j => lens.getD j 0 + 3)
      ((List.range lens.length).filter (fun j => j % ncol == i)) 0 with h | ⟨j, hj, h⟩
  · rw [colWidth, h] at hlb ⊢
    omega
  · refine ⟨j, ?_, ?_, h⟩
    · have := List.mem_filter.mp hj
      simpa using this.1
    · have := List.mem_filter.mp hj
      simpa using this.2

theorem sum_le_of_forall_le (c : Nat) :
    ∀ (L : List Nat), (∀ x ∈ L, c ≤ x) → L.length * c ≤ L.sum := by
  intro L
  induction L with
  | nil => intro _; simp
  | cons x L ih =>
    intro h
    have hx := h x (by simp)
    have hL := ih (fun y hy => h y (List.mem_cons_of_mem x hy))
    simp only [List.length_cons, List.sum_cons]
    calc (L.length + 1) * c = c + L.length * c := by ring
    _ ≤ x + L.sum := Nat.add_le_add hx hL

theorem colWidths_length (lens : List Nat) (ncol : Nat) :
    (colWidths lens ncol).length = ncol := by
  simp [colWidths]

theorem colWidths_getD (lens : List Nat) (ncol k : Nat) (hk : k < ncol) :
    (colWidths lens ncol).getD k 0 = colWidth lens ncol k := by
  unfold colWidths
  rw [List.getD_eq_getD_get?, List.get?_map, List.get?_range hk]
  rfl

theorem sumColW_lb (lens : List Nat) (m : Nat) (hm : m ≤ lens.length) :
    m * (minList lens + 3) ≤ sumColW lens m := by
  have hall : ∀ x ∈ colWidths lens m, minList lens + 3 ≤ x := by
    intro x hx
    unfold colWidths at hx
    rcases List.mem_map.mp hx with ⟨i, hi, rfl⟩
    have hilt : i < m := by simpa using List.mem_range.mp hi
    have hilen : i < lens.length := lt_of_lt_of_le hilt hm
    have himod : i % m = i := Nat.mod_eq_of_lt hilt
    exact le_trans (Nat.add_le_add_right (minList_le_getD lens i hilen) 3)
      (colWidth_ub lens m i i hilen himod)
  have := sum_le_of_forall_le (minList lens + 3) (colWidths lens m) hall
  rwa [colWidths_length] at this

theorem sumColW_one_le_max (lens : List Nat) :
    sumColW lens 1 ≤ maxList lens + 3 := by
  unfold sumColW colWidths
  have hr : List.range 1 = [0] := rfl
  rw [hr]
  simp only [List.map_cons, List.map_nil, List.sum_cons, List.sum_nil, Nat.add_zero]
  exact colWidth_le_max lens 1 0

theorem pickNcol_le (lens : List Nat) (u : Nat) :
    ∀ s, pickNcol lens u s ≤ s := by
  intro s
  induction s with
  | zero => exact Nat.le_refl 0
  | succ s ih =>
    unfold pickNcol
    split
    · exact Nat.le_refl _
    · exact Nat.le_succ_of_le ih

theorem pickNcol_spec (lens : List Nat) (u : Nat) (h1 : sumColW lens 1 ≤ u) :
    ∀ s, 1 ≤ s → 1 ≤ pickNcol lens u s ∧ sumColW lens (pickNcol lens u s) ≤ u := by
  intro s
  induction s with
  | zero => intro h; exact absurd h (by omega)
  | succ s ih =>
    intro _
    unfold pickNcol
    split
    · exact ⟨by omega, by assumption⟩
    · rename_i hinf
      cases Nat.eq_zero_or_pos s with
      | inl hz =>
        subst hz
        exact absurd h1 hinf
      | inr hpos => exact ih hpos

theorem pickNcol_max (lens : List Nat) (u : Nat) :
    ∀ s m, pickNcol lens u s < m → m ≤ s → u < sumColW lens m := by
  intro s
  induction s with
  | zero =>
    intro m _ hm2
    omega
  | succ s ih =>
    intro m hm1 hm2
    rw [pickNcol] at hm1
    split at hm1
    · omega
    · rename_i hinf
      rcases Nat.lt_or_ge m (s + 1) with hlt | hge
      · exact ih m hm1 (by omega)
      · have : m = s + 1 := by omega
        subst this
        omega

theorem ljust_length (s : String) (w : Nat) : (ljust s w).length = max w s.length := by
  unfold ljust
  rw [String.length_append]
  have : (String.mk (List.replicate (w - s.length) ' ')).length = w - s.length := by
    show (List.replicate (w - s.length) ' ').length = w - s.length
    exact List.length_replicate ..
  rw [this]
  omega

theorem join_length : ∀ (L : List String),
    (String.join L).length = (L.map String.length).sum := by
  have haux : ∀ (L : List String) (acc : String),
      (L.foldl (fun r s => r ++ s) acc).length =
        acc.length + (L.map String.length).sum := by
    intro L
    induction L with
    | nil => intro acc; simp
    | cons x L ih =>
      intro acc
      simp only [List.foldl_cons, List.map_cons, List.sum_cons]
      rw [ih (acc ++ x), String.length_append]
      omega
  intro L
  have := haux L ""
  simpa [String.join] using this

theorem zip_ljust_sum : ∀ (row : List String) (cw : List Nat),
    (∀ k, k < row.length → (row.getD k "").length ≤ cw.getD k 0) →
    ((List.zipWith ljust row cw).map String.length).sum ≤ cw.sum := by
  intro row
  induction row with
  | nil => intro cw _; simp
  | cons a row ih =>
    intro cw hk
    cases cw with
    | nil => simp
    | cons w cw' =>
      simp only [List.zipWith_cons_cons, List.map_cons, List.sum_cons]
      have h0 : a.length ≤ w := by simpa using hk 0 (by simp)
      have hrest := ih cw' (fun k hklt => by
        have := hk (k + 1) (by simpa using Nat.succ_lt_succ hklt)
        simpa using this)
      rw [ljust_length, Nat.max_eq_left h0]
      exact Nat.add_le_add (Nat.le_refl w) hrest

theorem withCommas_length : ∀ (l : List String), (withCommas l).length = l.length := by
  intro l
  induction l with
  | nil => rfl
  | cons x rest ih =>
    cases rest with
    | nil => rfl
    | cons y t =>
      simp only [withCommas, List.length_cons]
      simpa using ih

theorem withCommas_getD_le : ∀ (l : List String) (j : Nat),
    ((withCommas l).getD j "").length ≤ (l.getD j "").length + 1 := by
  intro l
  induction l with
  | nil => intro j; simp [withCommas]
  | cons x rest ih =>
    intro j
    cases rest with
    | nil =>
      cases j with
      | zero => simp [withCommas]
      | succ j => simp [withCommas, List.getD_cons_succ, List.getD]
    | cons y t =>
      cases j with
      | zero =>
        simp only [withCommas, List.getD_cons_zero, String.length_append]
        have h1 : (",").length = 1 := rfl
        omega
      | succ j =>
        have := ih j
        simpa [withCommas, List.getD_cons_succ] using this

theorem getD_drop (l : List String) (b j : Nat) :
    (l.drop b).getD j "" = l.getD (b + j) "" := by
  rw [List.getD_eq_getD_get?, List.getD_eq_getD_get?, List.get?_drop]

theorem getD_take (l : List String) (n j : Nat) (hj : j < n) :
    (l.take n).getD j "" = l.getD j "" := by
  rw [List.getD_eq_getD_get?, List.getD_eq_getD_get?, List.get?_take hj]

/-- Every row emitted by the chunked rendering loop fits in the total
column width, provided every cell fits the width of its column. -/
theorem rowsOfAux_bound (cells0 : List String) (cw : List Nat) (ncol : Nat)
    (hcell : ∀ j, j < cells0.length →
      (cells0.getD j "").length ≤ cw.getD (j % ncol) 0) :
    ∀ (fuel q : Nat) (cells : List String), cells = cells0.drop (ncol * q) →
      ∀ row ∈ rowsOfAux cw ncol fuel cells, row.length ≤ cw.sum := by
  intro fuel
  induction fuel with
  | zero =>
    intro q cells _ row hrow
    simp [rowsOfAux] at hrow
  | succ fuel ih =>
    intro q cells hcells row hrow
    cases cells with
    | nil => simp [rowsOfAux] at hrow
    | cons c0 crest =>
      rw [rowsOfAux, if_neg (by simp)] at hrow
      rcases List.mem_cons.mp hrow with rfl | hrow'
      · rw [join_length]
        refine zip_ljust_sum _ cw ?_
        intro k hk
        have hkmin := hk
        rw [List.length_take] at hkmin
        have hkn : k < ncol := by omega
        have hget : ((c0 :: crest).take ncol).getD k "" = (c0 :: crest).getD k "" :=
          getD_take _ ncol k hkn
        have hkcell : (c0 :: crest).getD k "" = cells0.getD (ncol * q + k) "" := by
          rw [hcells, getD_drop]
        have hblen : ncol * q + k < cells0.length := by
          have h1 : k < (c0 :: crest).length := by omega
          have h2 : (c0 :: crest).length = cells0.length - ncol * q := by
            rw [hcells, List.length_drop]
          omega
        have hmod : (ncol * q + k) % ncol = k := by
          rw [Nat.mul_add_mod]
          exact Nat.mod_eq_of_lt hkn
        rw [hget, hkcell]
        have := hcell (ncol * q + k) hblen
        rwa [hmod] at this
      · refine ih (q + 1) ((c0 :: crest).drop ncol) ?_ row hrow'
        have harith : ncol * q + ncol = ncol * (q + 1) := by ring
        rw [hcells, List.drop_drop, harith]

theorem map_length_getD : ∀ (rs : List String) (j : Nat), j < rs.length →
    (rs.map String.length).getD j 0 = (rs.getD j "").length := by
  intro rs
  induction rs with
  | nil => intro j hj; simp at hj
  | cons r rs ih =>
    intro j hj
    cases j with
    | zero => simp
    | succ j =>
      simpa [List.getD_cons_succ] using ih j (by simpa using hj)

/-- In the columnar case, `format_list` renders exactly the chunked rows
for the chosen column count. -/
theorem format_list_eq_columnar (detect : Option Nat) (l : List String)
    (hne : l ≠ []) (hbig : detect.getD 80 ≤ (strOfList l).length)
    (hfit : maxList (reprLens l) + 3 < usableWidth detect) :
    format_list detect l = some (String.join
      ((rowsOf (withCommas (l.map pyRepr))
        (colWidths (reprLens l) (chosenNcol l detect)) (chosenNcol l detect)).map
          (fun r => r ++ "\n"))) := by
  obtain ⟨x, l', rfl⟩ := List.exists_cons_of_ne_nil hne
  have hre : reprLens (x :: l') =
      String.length (pyRepr x) :: List.map String.length (List.map pyRepr l') := by
    simp [reprLens]
  have hfit' : ¬(maxList (String.length (pyRepr x) ::
      List.map String.length (List.map pyRepr l')) + 3 ≥ detect.getD 80 - 2) := by
    rw [← hre]
    exact Nat.not_le.mpr hfit
  unfold format_list
  dsimp only
  rw [if_neg (Nat.not_lt.mpr hbig)]
  dsimp only [List.map_cons]
  rw [if_neg hfit']
  simp only [chosenNcol, startNcol, usableWidth, reprLens, List.map_cons,
    List.length_map, List.length_cons]

/-! ## Claim C8 — columnar formatting -/

/-- Claim C8, counterexample: a single 100-character item and failed width
detection (fallback 80).  The single-line rendering does not fit, so the
columnar formatter runs — yet it emits one row of width 102, exceeding the
detected terminal width of 80 (and its column width is pinned to 1, not
max item width + 3). -/
theorem c8_counterexample :
    format_list none [c8big] = some (pyRepr c8big ++ "\n") ∧
    rowsOf (withCommas ([c8big].map pyRepr)) [1] 1 = [pyRepr c8big] ∧
    80 ≤ (strOfList [c8big]).length ∧
    80 < (pyRepr c8big).length := by decide

/-- Claim C8 (amended): for a non-empty list whose single-line rendering
does not fit the detected terminal width (fallback 80 when detection
fails), *provided every item fits on its own* (max quoted width + padding
below the usable width, terminal width minus 2), the formatter renders
chunked rows for a column count that is positive, at most the item count,
whose total column width fits the usable width, and which is maximal among
all column counts up to the item count with that property; each column's
width is exactly the maximum quoted-representation width of the items that
fall in that column plus the fixed inter-column padding of 3; and no
rendered row exceeds the detected terminal width. -/
theorem c8_columnar (detect : Option Nat) (l : List String)
    (hne : l ≠ [])
    (hbig : detect.getD 80 ≤ (strOfList l).length)
    (hfit : maxList (reprLens l) + 3 < usableWidth detect) :
    format_list detect l = some (String.join
      ((rowsOf (withCommas (l.map pyRepr))
        (colWidths (reprLens l) (chosenNcol l detect)) (chosenNcol l detect)).map
          (fun r => r ++ "\n"))) ∧
    (0 < chosenNcol l detect ∧ chosenNcol l detect ≤ l.length) ∧
    (colWidths (reprLens l) (chosenNcol l detect)).sum ≤ usableWidth detect ∧
    (∀ m, chosenNcol l detect < m → m ≤ l.length →
      usableWidth detect < (colWidths (reprLens l) m).sum) ∧
    (∀ i, i < chosenNcol l detect →
      (∀ j, j < (reprLens l).length → j % chosenNcol l detect = i →
        (reprLens l).getD j 0 + 3 ≤ colWidth (reprLens l) (chosenNcol l detect) i) ∧
      ∃ j, j < (reprLens l).length ∧ j % chosenNcol l detect = i ∧
        colWidth (reprLens l) (chosenNcol l detect) i =
          (reprLens l).getD j 0 + 3) ∧
    (∀ row ∈ rowsOf (withCommas (l.map pyRepr))
        (colWidths (reprLens l) (chosenNcol l detect)) (chosenNcol l detect),
      row.length ≤ detect.getD 80) := by
  have hlenlen : (reprLens l).length = l.length := by simp [reprLens]
  have hminW_le : minList (reprLens l) + 3 ≤ usableWidth detect := by
    have hlne : reprLens l ≠ [] := by
      obtain ⟨x, l', rfl⟩ := List.exists_cons_of_ne_nil hne
      simp [reprLens]
    obtain ⟨y, ys, he⟩ := List.exists_cons_of_ne_nil hlne
    have h0 : (reprLens l).getD 0 0 ∈ reprLens l :=
      getD_mem_of_lt _ 0 (by rw [he]; simp)
    have hmm : minList (reprLens l) ≤ maxList (reprLens l) :=
      le_trans (minList_le_mem _ _ h0) (mem_le_maxList _ _ h0)
    omega
  have hfeas1 : sumColW (reprLens l) 1 ≤ usableWidth detect :=
    le_trans (sumColW_one_le_max _) (le_of_lt hfit)
  have hstart1 : 1 ≤ startNcol l detect := by
    unfold startNcol
    have h1 : 1 ≤ l.length := by
      cases l with
      | nil => exact absurd rfl hne
      | cons a t => simp
    have h2 : 1 ≤ usableWidth detect / (minList (reprLens l) + 3) :=
      (Nat.one_le_div_iff (by omega)).mpr hminW_le
    exact le_min h1 h2
  have hspec := pickNcol_spec (reprLens l) (usableWidth detect) hfeas1
    (startNcol l detect) hstart1
  have hncol_pos : 0 < chosenNcol l detect := hspec.1
  have hncol_le : chosenNcol l detect ≤ l.length :=
    le_trans (pickNcol_le _ _ _) (min_le_left _ _)
  have hsum : (colWidths (reprLens l) (chosenNcol l detect)).sum ≤ usableWidth detect :=
    hspec.2
  refine ⟨format_list_eq_columnar detect l hne hbig hfit,
    ⟨hncol_pos, hncol_le⟩, hsum, ?_, ?_, ?_⟩
  · intro m hm hmle
    by_cases hms : m ≤ startNcol l detect
    · exact pickNcol_max _ _ _ m hm hms
    · push_neg at hms
      have hdiv : usableWidth detect / (minList (reprLens l) + 3) < m := by
        rcases le_or_lt m (usableWidth detect / (minList (reprLens l) + 3)) with h | h
        · have := le_min hmle h
          unfold startNcol at hms
          omega
        · exact h
      have hlt : usableWidth detect < m * (minList (reprLens l) + 3) :=
        (Nat.div_lt_iff_lt_mul (by omega)).mp hdiv
      calc usableWidth detect < m * (minList (reprLens l) + 3) := hlt
        _ ≤ sumColW (reprLens l) m := sumColW_lb _ m (by omega)
  · intro i hi
    refine ⟨fun j hj hjm => colWidth_ub _ _ i j hj hjm, ?_⟩
    exact colWidth_attain _ _ i hi (by omega)
  · intro row hrow
    unfold rowsOf at hrow
    rw [if_neg (by simpa using Nat.pos_iff_ne_zero.mp hncol_pos)] at hrow
    have hcell : ∀ j, j < (withCommas (l.map pyRepr)).length →
        ((withCommas (l.map pyRepr)).getD j "").length ≤
          (colWidths (reprLens l) (chosenNcol l detect)).getD
            (j % chosenNcol l detect) 0 := by
      intro j hjlen
      have hjl : j < l.length := by
        rw [withCommas_length, List.length_map] at hjlen
        exact hjlen
      have h1 := withCommas_getD_le (l.map pyRepr) j
      have h2 : (reprLens l).getD j 0 = ((l.map pyRepr).getD j "").length :=
        map_length_getD (l.map pyRepr) j (by simpa using hjl)
      have h3 : (reprLens l).getD j 0 + 3 ≤
          colWidth (reprLens l) (chosenNcol l detect) (j % chosenNcol l detect) :=
        colWidth_ub _ _ _ j (by omega) rfl
      have h4 : (colWidths (reprLens l) (chosenNcol l detect)).getD
          (j % chosenNcol l detect) 0 =
          colWidth (reprLens l) (chosenNcol l detect) (j % chosenNcol l detect) :=
        colWidths_getD _ _ _ (Nat.mod_lt j hncol_pos)
      omega
    have hb := rowsOfAux_bound (withCommas (l.map pyRepr))
      (colWidths (reprLens l) (chosenNcol l detect)) (chosenNcol l detect) hcell
      (withCommas (l.map pyRepr)).length 0 (withCommas (l.map pyRepr))
      (by simp) row hrow
    have husable : usableWidth detect ≤ detect.getD 80 := Nat.sub_le _ 2
    omega

/-- Claim C8, witness for the amended theorem at a concrete five-item list
and a detected width of 20 (three columns of width 6 are chosen). -/
theorem c8_witness :
    format_list (some 20) ["a", "b", "c", "d", "e"] = some (String.join
      ((rowsOf (withCommas (["a", "b", "c", "d", "e"].map pyRepr))
        (colWidths (reprLens ["a", "b", "c", "d", "e"])
          (chosenNcol ["a", "b", "c", "d", "e"] (some 20)))
        (chosenNcol ["a", "b", "c", "d", "e"] (some 20))).map
          (fun r => r ++ "\n"))) ∧
    (0 < chosenNcol ["a", "b", "c", "d", "e"] (some 20) ∧
      chosenNcol ["a", "b", "c", "d", "e"] (some 20) ≤
        (["a", "b", "c", "d", "e"] : List String).length) ∧
    (colWidths (reprLens ["a", "b", "c", "d", "e"])
        (chosenNcol ["a", "b", "c", "d", "e"] (some 20))).sum ≤
      usableWidth (some 20) ∧
    (∀ m, chosenNcol ["a", "b", "c", "d", "e"] (some 20) < m →
      m ≤ (["a", "b", "c", "d", "e"] : List String).length →
      usableWidth (some 20) < (colWidths (reprLens ["a", "b", "c", "d", "e"]) m).sum) ∧
    (∀ i, i < chosenNcol ["a", "b", "c", "d", "e"] (some 20) →
      (∀ j, j < (reprLens ["a", "b", "c", "d", "e"]).length →
        j % chosenNcol ["a", "b", "c", "d", "e"] (some 20) = i →
        (reprLens ["a", "b", "c", "d", "e"]).getD j 0 + 3 ≤
          colWidth (reprLens ["a", "b", "c", "d", "e"])
            (chosenNcol ["a", "b", "c", "d", "e"] (some 20)) i) ∧
      ∃ j, j < (reprLens ["a", "b", "c", "d", "e"]).length ∧
        j % chosenNcol ["a", "b", "c", "d", "e"] (some 20) = i ∧
        colWidth (reprLens ["a", "b", "c", "d", "e"])
          (chosenNcol ["a", "b", "c", "d", "e"] (some 20)) i =
          (reprLens ["a", "b", "c", "d", "e"]).getD j 0 + 3) ∧
    (∀ row ∈ rowsOf (withCommas (["a", "b", "c", "d", "e"].map pyRepr))
        (colWidths (reprLens ["a", "b", "c", "d", "e"])
          (chosenNcol ["a", "b", "c", "d", "e"] (some 20)))
        (chosenNcol ["a", "b", "c", "d", "e"] (some 20)),
      row.length ≤ (some 20 : Option Nat).getD 80) :=
  c8_columnar (some 20) ["a", "b", "c", "d", "e"] (by decide) (by decide) (by decide)

/-- Claim C10, counterexample: recycle mode on, one file queued for(though
still without attempting any recycling, as the trace shows). -/
theorem c10_counterexample :
    mainCore cfg0 envS ["f1", "s1"] false true false false false [] [] ["y"] =
      some ⟨1, [.prompt .othDelete false true, .rmOth ["s1"] 1]⟩ ∧
    (1 : Int) ≠ 0 := by decide

end CarefulRm
